import Mathlib

/-!
# shelter_adder: the row loop of `main` (src/main.go)

The program reads a CSV document, skips its header, and for every other row
extracts seven cells by position, converts two of them with
`strconv.ParseFloat`, formats the running identifier with `%04d`, and calls
`db.Exec` with one INSERT statement.  Three counters survive from one row to
the next: `successCount`, `errorCount` and `idCounter`.

The development below embeds

* `strconv.ParseFloat(s, 64)` of the Go standard library, as far as `main`
  depends on it: which texts it accepts (`err == nil`) and what kind of value
  it returns for them;
* `fmt.Sprintf("%04d", n)` for the non-negative `n` that `main` formats;
* the INSERT statement of `main` as data, with the meaning of `NULLIF`;
* the loop of `main` as a function on an explicit state, the database being
  an arbitrary state machine that answers every `db.Exec`.
-/

namespace ShelterAdder

/-! ## strconv.ParseFloat -/

/-- A float64 as `strconv.ParseFloat(s, 64)` returns it.  A finite result is
kept as the number the text denotes, `± mant * base ^ exp` (base 10 for a
decimal text, base 2 for a hexadecimal one); Go returns the float64 nearest to
that number, and the rounding itself is not part of the embedding. -/
inductive Float64 where
  | nan
  | inf (neg : Bool)
  | finite (neg : Bool) (mant : Nat) (base : Nat) (exp : Int)
deriving DecidableEq, Repr

/-- Whether the float64 is neither NaN nor an infinity (`!math.IsNaN(f) &&
!math.IsInf(f, 0)`). -/
def Float64.isFinite : Float64 → Bool
  | .finite _ _ _ _ => true
  | _ => false

/-- The two errors of strconv: `ErrSyntax` and `ErrRange`. -/
inductive NumError where
  | ErrSyntax
  | ErrRange
deriving DecidableEq, Repr

/-- Go: `lower(c) = c | ('x' ^ 'X')`, here on the code point.  The source works
on bytes; a byte of a multi-byte UTF-8 sequence is at least 0x80 and matches
none of the ASCII tests below, and neither does the code point it belongs to. -/
def lower (c : Char) : Nat := c.toNat ||| 0x20

/-- Go: `commonPrefixLenIgnoreCase(s, prefix)`, the second argument being in
lower case: the length of the longest common beginning, upper-case ASCII
letters of `s` counting as their lower-case ones. -/
def commonPrefixLenIgnoreCase : List Char → List Char → Nat
  | c :: s, p :: ps => if c.toLower = p then commonPrefixLenIgnoreCase s ps + 1 else 0
  | _, _ => 0

/-- The `case 'i', 'I'` arm of `special`, also reached by fallthrough after a
sign: `s` is the text after the sign, `nsign` the length of the sign. -/
def specialInf (neg : Bool) (nsign : Nat) (s : List Char) : Option (Float64 × Nat) :=
  let n := commonPrefixLenIgnoreCase s ['i', 'n', 'f', 'i', 'n', 'i', 't', 'y']
  let n := if 3 < n ∧ n < 8 then 3 else n
  if n = 3 ∨ n = 8 then some (Float64.inf neg, nsign + n) else none

/-- Go: `special(s)`: the value for a beginning of `s` that spells inf,
infinity (possibly signed) or nan, and the length of that beginning. -/
def special (s : List Char) : Option (Float64 × Nat) :=
  match s with
  | [] => none
  | c :: rest =>
    if c = '+' ∨ c = '-' then specialInf (c = '-') 1 rest
    else if c = 'i' ∨ c = 'I' then specialInf false 0 s
    else if c = 'n' ∨ c = 'N' then
      if commonPrefixLenIgnoreCase s ['n', 'a', 'n'] = 3 then some (Float64.nan, 3) else none
    else none

/-- The variables of the digit loop of `readFloat`.  The source keeps the first
19 (hexadecimal: 16) digits in a uint64 and a flag `trunc` for the rest; here
`mantissa` holds every digit, which is the number the slow path reads again
from the text, so `nd` stands for `ndMant` as well. -/
structure Digits where
  mantissa : Nat := 0
  nd : Nat := 0
  dp : Int := 0
  sawdot : Bool := false
  sawdigits : Bool := false
  underscores : Bool := false
deriving DecidableEq, Repr

/-- The digit loop of `readFloat` (`loop:`), returning the text it stopped at. -/
def readDigits (base : Nat) : List Char → Digits → Digits × List Char
  | [], d => (d, [])
  | c :: cs, d =>
    if c = '_' then readDigits base cs { d with underscores := true }
    else if c = '.' then
      if d.sawdot then (d, c :: cs)
      else readDigits base cs { d with sawdot := true, dp := d.nd }
    else if c.isDigit then
      if c = '0' ∧ d.nd = 0 then
        readDigits base cs { d with sawdigits := true, dp := d.dp - 1 }
      else
        readDigits base cs { d with sawdigits := true, nd := d.nd + 1,
                                    mantissa := d.mantissa * base + (c.toNat - 48) }
    else if base = 16 ∧ 97 ≤ lower c ∧ lower c ≤ 102 then
      readDigits base cs { d with sawdigits := true, nd := d.nd + 1,
                                  mantissa := d.mantissa * 16 + (lower c - 97 + 10) }
    else (d, c :: cs)

/-- The exponent loop of `readFloat`: digits and underscores, the exponent
being capped (`if e < 10000`). Returns the exponent, whether an underscore was
seen, and the text it stopped at. -/
def readExpDigits : List Char → Nat → Bool → Nat × Bool × List Char
  | [], e, u => (e, u, [])
  | c :: cs, e, u =>
    if c.isDigit then readExpDigits cs (if e < 10000 then e * 10 + (c.toNat - 48) else e) u
    else if c = '_' then readExpDigits cs e true
    else (e, u, c :: cs)

/-- Go: `underscoreOK`, its main loop: `saw` is the last character class seen,
`'0'` for a digit or base prefix, `'_'` for an underscore, `'!'` for anything
else and `'^'` at the start. -/
def underscoreLoop (hex : Bool) : List Char → Char → Bool
  | [], saw => saw != '_'
  | c :: cs, saw =>
    if c.isDigit ∨ (hex = true ∧ 97 ≤ lower c ∧ lower c ≤ 102) then underscoreLoop hex cs '0'
    else if c = '_' then
      if saw != '0' then false else underscoreLoop hex cs '_'
    else if saw = '_' then false
    else underscoreLoop hex cs '!'

/-- Go: `underscoreOK(s)`: underscores only between digits, or between a base
prefix and a digit. -/
def underscoreOK (s : List Char) : Bool :=
  let s := match s with
    | '-' :: t => t
    | '+' :: t => t
    | _ => s
  match s with
  | '0' :: b :: t =>
    if lower b = 98 ∨ lower b = 111 ∨ lower b = 120 then underscoreLoop (lower b = 120) t '0'
    else underscoreLoop false s '^'
  | _ => underscoreLoop false s '^'

/-- What `readFloat` returns when `ok`: the mantissa, the exponent of its base
(10, or 2 for a hexadecimal text), the sign, and the count of characters read. -/
structure ReadFloat where
  mantissa : Nat
  exp : Int
  neg : Bool
  hex : Bool
  n : Nat
deriving DecidableEq, Repr

/-- The optional exponent of `readFloat`, on the text `s` left by the digit
loop: `none` where the source returns with `ok` false, otherwise the decimal
point moved by the exponent, the underscore flag and the text left. -/
def readExponent (hex : Bool) (d : Digits) (dp : Int) (s : List Char) :
    Option (Int × Bool × List Char) :=
  match s with
  | c :: t =>
    if lower c = (if hex then 112 else 101) then
      match t with
      | [] => none
      | c1 :: t1 =>
        let esign : Int := if c1 = '-' then -1 else 1
        let t2 := if c1 = '+' ∨ c1 = '-' then t1 else t
        match t2 with
        | [] => none
        | c2 :: _ =>
          if c2.isDigit then
            let r := readExpDigits t2 0 d.underscores
            some (dp + (r.1 : Int) * esign, r.2.1, r.2.2)
          else none
    else if hex then none
    else some (dp, d.underscores, s)
  | [] => if hex then none else some (dp, d.underscores, [])

/-- The test for a base prefix in `readFloat`, on the text after the sign:
`i+2 < len(s) && s[i] == '0' && lower(s[i+1]) == 'x'`. -/
def hexPrefix (s : List Char) : Bool :=
  match s with
  | c0 :: c1 :: _ :: _ => c0 = '0' ∧ lower c1 = 120
  | _ => false

/-- The part of `readFloat` after the sign and the base prefix: the digit loop
on `s2`, the exponent, and the check of the underscores; `s` is the whole
text, of which `n` counts the characters read. -/
def readNumber (s : List Char) (neg hex : Bool) (s2 : List Char) : Option ReadFloat :=
  let r := readDigits (if hex then 16 else 10) s2 {}
  let d := r.1
  if d.sawdigits = false then none
  else
    let dp : Int := if d.sawdot then d.dp else d.nd
    let dp := if hex then dp * 4 else dp
    let ndMant : Int := if hex then (d.nd : Int) * 4 else d.nd
    match readExponent hex d dp r.2 with
    | none => none
    | some (dp, underscores, rest) =>
      let n := s.length - rest.length
      let exp : Int := if d.mantissa ≠ 0 then dp - ndMant else 0
      if underscores = true ∧ underscoreOK (s.take n) = false then none
      else some { mantissa := d.mantissa, exp := exp, neg := neg, hex := hex, n := n }

/-- Go: `readFloat(s)`; `none` stands for `ok == false`. -/
def readFloat (s : List Char) : Option ReadFloat :=
  match s with
  | [] => none
  | c :: t =>
    let s1 := if c = '+' ∨ c = '-' then t else s
    readNumber s (c = '-') (hexPrefix s1) (if hexPrefix s1 then s1.drop 2 else s1)

/-- The least number whose nearest float64 is not finite: `2^1024 - 2^970`,
half a unit in the last place above the largest float64. -/
def float64Limit : Nat :=
  179769313486231580793728971405303415079934132710037826936173778980444968292764750946649017977587207096330286416692887910946555547851940402630657488671505820681908902000708383676273854845817711531764475730270069855571366959622842914819860834936475292719074168444365510704342711559699508093042880177904174497792

/-- Whether `mant * base ^ exp` rounds to an infinity: the case in which
`atof64` and `atofHex` return `ErrRange`. -/
def overflows (mant base : Nat) (exp : Int) : Bool :=
  match exp with
  | Int.ofNat k => decide (float64Limit ≤ mant * base ^ k)
  | Int.negSucc k => decide (float64Limit * base ^ (k + 1) ≤ mant)

/-- Go: `atof64(s)` after `parseFloatPrefix`: the value, the count of
characters read, and the error. -/
def atof64 (s : List Char) : Except NumError (Float64 × Nat) :=
  match special s with
  | some (val, n) => .ok (val, n)
  | none =>
    match readFloat s with
    | none => .error NumError.ErrSyntax
    | some r =>
      let base := if r.hex then 2 else 10
      if overflows r.mantissa base r.exp then .error NumError.ErrRange
      else .ok (Float64.finite r.neg r.mantissa base r.exp, r.n)

/-- Go: `strconv.ParseFloat(s, 64)`: the text must be read to its end. -/
def parseFloatChars (s : List Char) : Except NumError Float64 :=
  match atof64 s with
  | .ok (f, n) => if n ≠ s.length then .error NumError.ErrSyntax else .ok f
  | .error NumError.ErrSyntax => .error NumError.ErrSyntax
  | .error NumError.ErrRange =>
    match readFloat s with
    | some r => if r.n ≠ s.length then .error NumError.ErrSyntax else .error NumError.ErrRange
    | none => .error NumError.ErrSyntax

/-- The call `strconv.ParseFloat(s, 64)` of `main`. -/
def ParseFloat (s : String) : Except NumError Float64 := parseFloatChars s.data

/-! ## fmt.Sprintf("%04d", n) -/

/-- The decimal digits of `n`, most significant first, as `%d` prints a
non-negative integer; `fuel` bounds the number of digits. -/
def decimalDigits : Nat → Nat → List Char
  | 0, _ => []
  | fuel + 1, n =>
    if n < 10 then [Char.ofNat (48 + n)]
    else decimalDigits fuel (n / 10) ++ [Char.ofNat (48 + n % 10)]

/-- Go: `fmt.Sprintf("%04d", n)` for `n ≥ 0`: the decimal digits of `n`, with
zeros in front up to a width of four characters. -/
def Sprintf04d (n : Nat) : String :=
  let ds := decimalDigits (n + 1) n
  String.mk (List.replicate (4 - ds.length) '0' ++ ds)

/-- The number a string of decimal digits denotes. -/
def decimalValue (s : String) : Nat :=
  s.data.foldl (fun acc c => acc * 10 + (c.toNat - 48)) 0

/-! ## The INSERT statement -/

/-- A value bound to a placeholder, or stored in a column. -/
inductive SqlValue where
  | text (s : String)
  | float (f : Float64)
  | null
deriving DecidableEq, Repr

/-- The expressions of the VALUES list of `main`: a placeholder `$n`, or
`NULLIF(e, 'lit')`. -/
inductive SqlExpr where
  | param (n : Nat)
  | nullif (e : SqlExpr) (lit : String)
deriving DecidableEq, Repr

/-- An `INSERT INTO table (columns) VALUES (values)` statement. -/
structure InsertStmt where
  table : String
  columns : List String
  values : List SqlExpr
deriving DecidableEq, Repr

/-- The statement of `main` (lines 127-130). -/
def query : InsertStmt :=
  { table := "place",
    columns := ["id", "name", "name_kana", "address", "lat", "lon", "url", "tel"],
    values := [.param 1, .param 2, .param 3, .param 4, .param 5, .param 6,
               .nullif (.param 7) "", .nullif (.param 8) ""] }

/-- The value of an expression under the arguments of `db.Exec`: `$n` is the
n-th argument, `NULLIF(e, 'lit')` is NULL when `e` equals the literal and `e`
otherwise. -/
def SqlExpr.eval (args : List SqlValue) : SqlExpr → Option SqlValue
  | .param n => if n = 0 then none else args[n - 1]?
  | .nullif e lit =>
    match e.eval args with
    | some (.text s) => if s = lit then some .null else some (.text s)
    | v => v

/-- The placeholder an expression reads, NULLIF looked through. -/
def SqlExpr.placeholder : SqlExpr → Nat
  | .param n => n
  | .nullif e _ => e.placeholder

/-- The argument of `db.Exec` that feeds the column `col` of the statement. -/
def InsertStmt.bound (q : InsertStmt) (args : List SqlValue) (col : String) : Option SqlValue :=
  match (q.columns.zip q.values).lookup col with
  | some e => if e.placeholder = 0 then none else args[e.placeholder - 1]?
  | none => none

/-- The value the statement stores in the column `col`. -/
def InsertStmt.stored (q : InsertStmt) (args : List SqlValue) (col : String) : Option SqlValue :=
  match (q.columns.zip q.values).lookup col with
  | some e => e.eval args
  | none => none

/-! ## The database, and the state of the loop -/

/-- The database behind `db.Exec`: any state machine; `Exec` returns the next
state and whether the statement succeeded (`err == nil`). -/
structure Database (σ : Type) where
  Exec : σ → InsertStmt → List SqlValue → σ × Bool

/-- One call of `db.Exec` by `main`, with its answer. -/
structure ExecCall where
  stmt : InsertStmt
  args : List SqlValue
  ok : Bool
deriving DecidableEq, Repr

/-- The identifier a call carries: its first argument. -/
def ExecCall.id (c : ExecCall) : String :=
  match c.args with
  | .text s :: _ => s
  | _ => ""

/-- The line `main` prints for a row (lines 109, 117, 135, 143), with the line
number `i+1` and the name it shows. -/
inductive Line where
  | latFailed (line : Nat) (name : String)
  | lonFailed (line : Nat) (name : String)
  | insertFailed (line : Nat) (name : String)
  | registered (line : Nat) (name : String) (id : String)
deriving DecidableEq, Repr

/-- The line number a printed line shows. -/
def Line.line : Line → Nat
  | .latFailed l _ => l
  | .lonFailed l _ => l
  | .insertFailed l _ => l
  | .registered l _ _ => l

/-- The name a printed line shows. -/
def Line.name : Line → String
  | .latFailed _ n => n
  | .lonFailed _ n => n
  | .insertFailed _ n => n
  | .registered _ n _ => n

/-- The variables of the loop of `main`, the state of the database, and what
the loop has done so far: the lines printed and the calls of `db.Exec`.  The
counters are Go `int`s; they never exceed `len(records)`, itself an `int`, so
they do not wrap. -/
structure State (σ : Type) where
  db : σ
  successCount : Nat
  errorCount : Nat
  idCounter : Nat
  lines : List Line
  calls : List ExecCall

/-- The state before the loop (lines 82-84). -/
def State.init {σ : Type} (s0 : σ) : State σ :=
  { db := s0, successCount := 0, errorCount := 0, idCounter := 1, lines := [], calls := [] }

/-- What stops `main` early: `log.Fatal` on a document without data rows
(line 78), or the run-time panic of an index out of range (lines 97-103). -/
inductive Abort where
  | noData
  | indexOutOfRange (index : Nat) (length : Nat)
deriving DecidableEq, Repr

/-- Go: `record[k]`, which panics when `k` is not below `len(record)`. -/
def index (record : List String) (k : Nat) : Except Abort String :=
  match record[k]? with
  | some c => .ok c
  | none => .error (.indexOutOfRange k record.length)

/-- The seven cells `main` reads from a row. -/
structure Cells where
  name : String
  nameKana : String
  address : String
  latStr : String
  lonStr : String
  tel : String
  url : String
deriving DecidableEq, Repr

/-- Lines 97-103: the cells are read in this order, each read may panic. -/
def extract (record : List String) : Except Abort Cells :=
  match index record 3 with
  | .error e => .error e
  | .ok name =>
  match index record 4 with
  | .error e => .error e
  | .ok nameKana =>
  match index record 8 with
  | .error e => .error e
  | .ok address =>
  match index record 14 with
  | .error e => .error e
  | .ok latStr =>
  match index record 15 with
  | .error e => .error e
  | .ok lonStr =>
  match index record 17 with
  | .error e => .error e
  | .ok tel =>
  match index record 33 with
  | .error e => .error e
  | .ok url => .ok { name, nameKana, address, latStr, lonStr, tel, url }

/-- Lines 105-143: what `main` does with the cells of one row. -/
def process {σ : Type} (db : Database σ) (i : Nat) (c : Cells) (st : State σ) : State σ :=
  match ParseFloat c.latStr with
  | .error _ =>
    { st with errorCount := st.errorCount + 1,
              lines := st.lines ++ [.latFailed (i + 1) c.name] }
  | .ok lat =>
  match ParseFloat c.lonStr with
  | .error _ =>
    { st with errorCount := st.errorCount + 1,
              lines := st.lines ++ [.lonFailed (i + 1) c.name] }
  | .ok lon =>
    let id := Sprintf04d st.idCounter
    let args : List SqlValue :=
      [.text id, .text c.name, .text c.nameKana, .text c.address, .float lat, .float lon,
       .text c.url, .text c.tel]
    let r := db.Exec st.db query args
    if r.2 = true then
      { db := r.1, successCount := st.successCount + 1, errorCount := st.errorCount,
        idCounter := st.idCounter + 1,
        lines := st.lines ++ [.registered (i + 1) c.name id],
        calls := st.calls ++ [{ stmt := query, args := args, ok := true }] }
    else
      { db := r.1, successCount := st.successCount, errorCount := st.errorCount + 1,
        idCounter := st.idCounter,
        lines := st.lines ++ [.insertFailed (i + 1) c.name],
        calls := st.calls ++ [{ stmt := query, args := args, ok := false }] }

/-- The body of the loop (lines 86-144) for the row at position `i`: the header
is skipped, a panic leaves the state as it was before the row. -/
def body {σ : Type} (db : Database σ) (i : Nat) (record : List String) (st : State σ) :
    Except Abort (State σ) :=
  if i = 0 then .ok st
  else
    match extract record with
    | .error e => .error e
    | .ok c => .ok (process db i c st)

/-- The loop `for i, record := range records`, from position `i` on.  It
returns the state it reached and what stopped it, if anything did. -/
def loop {σ : Type} (db : Database σ) : Nat → List (List String) → State σ →
    State σ × Option Abort
  | _, [], st => (st, none)
  | i, record :: rest, st =>
    match body db i record st with
    | .error e => (st, some e)
    | .ok st1 => loop db (i + 1) rest st1

/-- Lines 76-144 of `main`, on the records `reader.ReadAll` returned and a
database in state `s0`. -/
def main {σ : Type} (db : Database σ) (s0 : σ) (records : List (List String)) :
    State σ × Option Abort :=
  if records.length < 2 then (State.init s0, some .noData)
  else loop db 0 records (State.init s0)

/-! ## Databases and rows to run the loop on -/

/-- A database that answers every statement the same way. -/
def dbAlways (ok : Bool) : Database Unit :=
  { Exec := fun _ _ _ => ((), ok) }

/-- A database that answers the calls one after the other from a list, and
succeeds once the list is used up. -/
def dbScript : Database (List Bool) :=
  { Exec := fun s _ _ =>
      match s with
      | [] => ([], true)
      | b :: t => (t, b) }

/-- A row of 34 cells, empty but for the seven cells `main` reads. -/
def mkRow (name nameKana address lat lon tel url : String) : List String :=
  ["", "", "", name, nameKana, "", "", "", address, "", "", "", "", "", lat, lon, "", tel,
   "", "", "", "", "", "", "", "", "", "", "", "", "", "", "", url]

/-- The header of a document: 34 column names, none of them a number. -/
def headerRow : List String := List.replicate 34 "h"

/-- A row with coordinates (35.0, 139.0). -/
def rowA : List String := mkRow "A" "a" "addr" "35.0" "139.0" "" ""

/-- A row whose latitude cell is the text xx. -/
def rowB : List String := mkRow "B" "b" "addr" "xx" "139.0" "076" "http://b"

/-! ## Notions the statements use -/

/-- Whether `strconv.ParseFloat` returns no error for the text. -/
def accepted (s : String) : Bool :=
  match ParseFloat s with
  | .ok _ => true
  | .error _ => false

/-- The cells of a row at the positions `main` reads. -/
def cellsOf (record : List String) : Cells :=
  { name := record.getD 3 "", nameKana := record.getD 4 "", address := record.getD 8 "",
    latStr := record.getD 14 "", lonStr := record.getD 15 "", tel := record.getD 17 "",
    url := record.getD 33 "" }

/-- A row passes validation: the latitude cell and the longitude cell are both
accepted. -/
def valid (record : List String) : Bool :=
  accepted (record.getD 14 "") && accepted (record.getD 15 "")

/-- The arguments `main` passes to `db.Exec` for the cells `c`, the coordinates
`lat`, `lon` and the counter `n`. -/
def argsOf (n : Nat) (c : Cells) (lat lon : Float64) : List SqlValue :=
  [.text (Sprintf04d n), .text c.name, .text c.nameKana, .text c.address, .float lat,
   .float lon, .text c.url, .text c.tel]

/-- The calls carry the identifiers of a counter that starts at `n` and moves
on by one after every call that succeeded, and only then. -/
def Numbered : Nat → List ExecCall → Prop
  | _, [] => True
  | n, c :: cs => c.id = Sprintf04d n ∧ Numbered (if c.ok = true then n + 1 else n) cs

/-- The loop went from `st` to `st1` over the data rows `rows`, the first of
them at position `i`, making the calls `new` and printing the lines `out`. -/
structure Ran {σ : Type} (i : Nat) (rows : List (List String)) (st st1 : State σ)
    (new : List ExecCall) (out : List Line) : Prop where
  calls : st1.calls = st.calls ++ new
  lines : st1.lines = st.lines ++ out
  numbered : Numbered st.idCounter new
  attempts : new.length = rows.countP valid
  successCount : st1.successCount = st.successCount + new.countP (fun c => c.ok)
  errorCount : st1.errorCount =
    st.errorCount + rows.countP (fun r => !valid r) + new.countP (fun c => !c.ok)
  idCounter : st1.idCounter = st.idCounter + new.countP (fun c => c.ok)
  lineNumbers : out.map Line.line = List.range' (i + 1) rows.length
  lineNames : out.map Line.name = rows.map (fun r => r.getD 3 "")
  stmts : ∀ c ∈ new, c.stmt = query

/-- The number of rows that fail validation (K). -/
def failedValidation (rows : List (List String)) : Nat :=
  rows.countP (fun r => !valid r)

/-- The number of inserts that failed in a run (M). -/
def failedInserts {σ : Type} (st : State σ) : Nat :=
  st.calls.countP (fun c => !c.ok)

/-- The identifiers of the rows that were persisted, in the order of the run. -/
def persistedIds {σ : Type} (st : State σ) : List String :=
  (st.calls.filter (fun c => c.ok)).map ExecCall.id

/-- The spellings, in lower case, that `special` reads to their end. -/
def specialWords : List String :=
  ["nan", "inf", "+inf", "-inf", "infinity", "+infinity", "-infinity"]

/-- The text with its upper-case ASCII letters turned to lower case. -/
def lowerCase (s : String) : String := String.mk (s.data.map Char.toLower)

/-! ## Numeric text

What follows describes, apart from the parser above, the texts that have the
shape of a floating-point number: an optional sign; then either decimal digits
with at most one decimal point, optionally followed by an exponent (e or E, an
optional sign, decimal digits), or the prefix 0x or 0X, hexadecimal digits
with at most one point, and an exponent that is required (p or P, an optional
sign, decimal digits).  A mantissa holds at least one digit; underscores may
stand among the digits. -/

/-- The text without its sign, if it starts with one. -/
def dropSign (s : List Char) : List Char :=
  match s with
  | c :: t => if c = '+' ∨ c = '-' then t else s
  | [] => []

/-- A hexadecimal digit: 0-9, a-f or A-F. -/
def isHexDigit (c : Char) : Bool :=
  c.isDigit || (97 ≤ c.toNat && c.toNat ≤ 102) || (65 ≤ c.toNat && c.toNat ≤ 70)

/-- A mantissa: digits, underscores and at most one decimal point, with at
least one digit. -/
def isMantissa (digit : Char → Bool) (m : List Char) : Bool :=
  m.all (fun c => digit c || c == '.' || c == '_') && m.any digit &&
    decide (m.count '.' ≤ 1)

/-- The digits of an exponent: a decimal digit, then decimal digits and
underscores. -/
def isExponentDigits (ds : List Char) : Bool :=
  (match ds with
    | c :: _ => c.isDigit
    | [] => false) && ds.all (fun c => c.isDigit || c == '_')

/-- An exponent: its letter (`lo` or `up`), an optional sign, and digits. -/
def isExponent (lo up : Char) (ex : List Char) : Bool :=
  match ex with
  | c :: t => (c == lo || c == up) && isExponentDigits (dropSign t)
  | [] => false

/-- A decimal number without its sign: a mantissa up to the first e or E, and
nothing more or an exponent. -/
def isDecimalLiteral (t : List Char) : Bool :=
  isMantissa Char.isDigit (t.takeWhile (fun c => !(c == 'e' || c == 'E'))) &&
    ((t.dropWhile (fun c => !(c == 'e' || c == 'E'))).isEmpty ||
      isExponent 'e' 'E' (t.dropWhile (fun c => !(c == 'e' || c == 'E'))))

/-- A hexadecimal number after its prefix 0x: a mantissa up to the first p or
P, and an exponent. -/
def isHexLiteral (t : List Char) : Bool :=
  isMantissa isHexDigit (t.takeWhile (fun c => !(c == 'p' || c == 'P'))) &&
    isExponent 'p' 'P' (t.dropWhile (fun c => !(c == 'p' || c == 'P')))

/-- A numeric text: a text of the shape of a floating-point number. -/
def isNumericText (s : List Char) : Bool :=
  match dropSign s with
  | c0 :: x :: c :: rest =>
    if c0 = '0' ∧ (x = 'x' ∨ x = 'X') then isHexLiteral (c :: rest)
    else isDecimalLiteral (c0 :: x :: c :: rest)
  | t => isDecimalLiteral t

/-! ## The range of float64 -/

/-- The constant of the range check is `2^1024 - 2^970`. -/
theorem float64Limit_eq : float64Limit = 2 ^ 1024 - 2 ^ 970 := by
  norm_num [float64Limit]

/-! ## Sprintf04d: digits, value, width -/

theorem toNat_ofNat_digit {m : Nat} (h : m < 10) : (Char.ofNat (48 + m)).toNat = 48 + m := by
  interval_cases m <;> rfl

theorem isDigit_ofNat_digit {m : Nat} (h : m < 10) : (Char.ofNat (48 + m)).isDigit = true := by
  interval_cases m <;> rfl

theorem foldl_decimalDigits (fuel : Nat) :
    ∀ n, n < fuel →
      (decimalDigits fuel n).foldl (fun acc c => acc * 10 + (c.toNat - 48)) 0 = n := by
  induction fuel with
  | zero => intro n h; omega
  | succ k ih =>
    intro n h
    unfold decimalDigits
    by_cases h10 : n < 10
    · simp [h10, toNat_ofNat_digit h10]
    · have hlt : n % 10 < 10 := Nat.mod_lt _ (by omega)
      have hk : n / 10 < k := by omega
      simp only [h10, if_false, List.foldl_append, List.foldl_cons, List.foldl_nil, ih _ hk,
        toNat_ofNat_digit hlt]
      omega

theorem foldl_replicate_zero (k : Nat) (l : List Char) :
    (List.replicate k '0' ++ l).foldl (fun acc c => acc * 10 + (c.toNat - 48)) 0
      = l.foldl (fun acc c => acc * 10 + (c.toNat - 48)) 0 := by
  induction k with
  | zero => simp
  | succ k ih =>
    rw [List.replicate_succ, List.cons_append, List.foldl_cons]
    exact ih

/-- Reading back what `%04d` printed gives the number printed. -/
theorem decimalValue_Sprintf04d (n : Nat) : decimalValue (Sprintf04d n) = n := by
  unfold decimalValue Sprintf04d
  simp only []
  rw [foldl_replicate_zero]
  exact foldl_decimalDigits (n + 1) n (Nat.lt_succ_self n)

theorem Sprintf04d_injective {m n : Nat} (h : Sprintf04d m = Sprintf04d n) : m = n := by
  have := congrArg decimalValue h
  simpa [decimalValue_Sprintf04d] using this

theorem decimalDigits_isDigit (fuel : Nat) :
    ∀ n, ∀ c ∈ decimalDigits fuel n, c.isDigit = true := by
  induction fuel with
  | zero => intro n c hc; simp [decimalDigits] at hc
  | succ k ih =>
    intro n c hc
    unfold decimalDigits at hc
    by_cases h10 : n < 10
    · simp [h10] at hc
      subst hc
      exact isDigit_ofNat_digit h10
    · have hlt : n % 10 < 10 := Nat.mod_lt _ (by omega)
      simp only [h10, if_false, List.mem_append, List.mem_singleton] at hc
      rcases hc with hc | hc
      · exact ih _ c hc
      · subst hc
        exact isDigit_ofNat_digit hlt

theorem Sprintf04d_isDigit (n : Nat) : ∀ c ∈ (Sprintf04d n).data, c.isDigit = true := by
  intro c hc
  unfold Sprintf04d at hc
  simp only [List.mem_append, List.mem_replicate] at hc
  rcases hc with ⟨_, hc⟩ | hc
  · subst hc; rfl
  · exact decimalDigits_isDigit _ _ c hc

theorem decimalDigits_length_le (fuel : Nat) :
    ∀ n, n < 10000 → n < fuel → (decimalDigits fuel n).length ≤ 4 := by
  intro n h hf
  match fuel, hf with
  | f + 1, _ =>
    unfold decimalDigits
    by_cases h1 : n < 10
    · simp [h1]
    · simp only [h1, if_false, List.length_append, List.length_singleton]
      match f with
      | 0 => omega
      | f + 1 =>
        unfold decimalDigits
        by_cases h2 : n / 10 < 10
        · simp [h2]
        · simp only [h2, if_false, List.length_append, List.length_singleton]
          match f with
          | 0 => omega
          | f + 1 =>
            unfold decimalDigits
            by_cases h3 : n / 10 / 10 < 10
            · simp [h3]
            · simp only [h3, if_false, List.length_append, List.length_singleton]
              match f with
              | 0 => omega
              | f + 1 =>
                unfold decimalDigits
                have h4 : n / 10 / 10 / 10 < 10 := by omega
                simp [h4]

/-- Below 10000 the identifier has exactly four characters. -/
theorem Sprintf04d_length {n : Nat} (h : n < 10000) : (Sprintf04d n).length = 4 := by
  have := decimalDigits_length_le (n + 1) n h (Nat.lt_succ_self n)
  unfold Sprintf04d
  simp only [String.length, List.length_append, List.length_replicate]
  omega

/-! ## One row -/

theorem index_of_lt {record : List String} {k : Nat} (h : k < record.length) :
    index record k = .ok (record.getD k "") := by
  simp [index, List.getD, List.getElem?_eq_getElem h]

theorem extract_of_length {record : List String} (h : 34 ≤ record.length) :
    extract record = .ok (cellsOf record) := by
  unfold extract
  rw [index_of_lt (show 3 < record.length by omega), index_of_lt (show 4 < record.length by omega),
    index_of_lt (show 8 < record.length by omega), index_of_lt (show 14 < record.length by omega),
    index_of_lt (show 15 < record.length by omega), index_of_lt (show 17 < record.length by omega),
    index_of_lt (show 33 < record.length by omega)]
  rfl

theorem body_of_length {σ : Type} (db : Database σ) {i : Nat} {record : List String}
    (hi : i ≠ 0) (h : 34 ≤ record.length) (st : State σ) :
    body db i record st = .ok (process db i (cellsOf record) st) := by
  simp [body, hi, extract_of_length h]

theorem body_header {σ : Type} (db : Database σ) (record : List String) (st : State σ) :
    body db 0 record st = .ok st := by
  simp [body]

theorem accepted_eq_false {s : String} :
    accepted s = false ↔ ∃ e, ParseFloat s = .error e := by
  unfold accepted
  cases h : ParseFloat s <;> simp

theorem accepted_eq_true {s : String} :
    accepted s = true ↔ ∃ f, ParseFloat s = .ok f := by
  unfold accepted
  cases h : ParseFloat s <;> simp

/-- A row whose latitude cell is rejected: one error, one line, nothing else. -/
theorem process_lat_error {σ : Type} (db : Database σ) (i : Nat) (c : Cells) (st : State σ)
    {e : NumError} (h : ParseFloat c.latStr = .error e) :
    process db i c st =
      { st with errorCount := st.errorCount + 1,
                lines := st.lines ++ [.latFailed (i + 1) c.name] } := by
  simp [process, h]

/-- A row whose longitude cell is rejected after the latitude cell was accepted. -/
theorem process_lon_error {σ : Type} (db : Database σ) (i : Nat) (c : Cells) (st : State σ)
    {lat : Float64} {e : NumError} (h1 : ParseFloat c.latStr = .ok lat)
    (h2 : ParseFloat c.lonStr = .error e) :
    process db i c st =
      { st with errorCount := st.errorCount + 1,
                lines := st.lines ++ [.lonFailed (i + 1) c.name] } := by
  simp [process, h1, h2]

/-- A row that passes validation and whose insert succeeds. -/
theorem process_insert_ok {σ : Type} (db : Database σ) (i : Nat) (c : Cells) (st : State σ)
    {lat lon : Float64} (h1 : ParseFloat c.latStr = .ok lat) (h2 : ParseFloat c.lonStr = .ok lon)
    (hok : (db.Exec st.db query (argsOf st.idCounter c lat lon)).2 = true) :
    process db i c st =
      { db := (db.Exec st.db query (argsOf st.idCounter c lat lon)).1,
        successCount := st.successCount + 1, errorCount := st.errorCount,
        idCounter := st.idCounter + 1,
        lines := st.lines ++ [.registered (i + 1) c.name (Sprintf04d st.idCounter)],
        calls := st.calls ++
          [{ stmt := query, args := argsOf st.idCounter c lat lon, ok := true }] } := by
  unfold argsOf at hok
  simp [process, h1, h2, hok, argsOf]

/-- A row that passes validation and whose insert fails. -/
theorem process_insert_failed {σ : Type} (db : Database σ) (i : Nat) (c : Cells) (st : State σ)
    {lat lon : Float64} (h1 : ParseFloat c.latStr = .ok lat) (h2 : ParseFloat c.lonStr = .ok lon)
    (hok : (db.Exec st.db query (argsOf st.idCounter c lat lon)).2 = false) :
    process db i c st =
      { db := (db.Exec st.db query (argsOf st.idCounter c lat lon)).1,
        successCount := st.successCount, errorCount := st.errorCount + 1,
        idCounter := st.idCounter,
        lines := st.lines ++ [.insertFailed (i + 1) c.name],
        calls := st.calls ++
          [{ stmt := query, args := argsOf st.idCounter c lat lon, ok := false }] } := by
  unfold argsOf at hok
  simp [process, h1, h2, hok, argsOf]

theorem valid_eq_false {record : List String} (h : valid record = false) :
    (∃ e, ParseFloat (cellsOf record).latStr = .error e) ∨
    (∃ lat e, ParseFloat (cellsOf record).latStr = .ok lat ∧
      ParseFloat (cellsOf record).lonStr = .error e) := by
  unfold valid at h
  simp only [cellsOf]
  cases h1 : ParseFloat (record.getD 14 "") with
  | error e => exact Or.inl ⟨e, rfl⟩
  | ok lat =>
    right
    have ha : accepted (record.getD 14 "") = true := accepted_eq_true.mpr ⟨lat, h1⟩
    rw [ha, Bool.true_and] at h
    obtain ⟨e, he⟩ := accepted_eq_false.mp h
    exact ⟨lat, e, rfl, he⟩

theorem valid_eq_true {record : List String} (h : valid record = true) :
    ∃ lat lon, ParseFloat (cellsOf record).latStr = .ok lat ∧
      ParseFloat (cellsOf record).lonStr = .ok lon := by
  unfold valid at h
  simp only [cellsOf]
  rw [Bool.and_eq_true] at h
  obtain ⟨lat, h1⟩ := accepted_eq_true.mp h.1
  obtain ⟨lon, h2⟩ := accepted_eq_true.mp h.2
  exact ⟨lat, lon, h1, h2⟩

/-! ## The loop over rows of at least 34 cells -/

theorem ran_nil {σ : Type} (i : Nat) (st : State σ) : Ran i [] st st [] [] :=
  { calls := by simp, lines := by simp, numbered := trivial, attempts := by simp,
    successCount := by simp, errorCount := by simp, idCounter := by simp,
    lineNumbers := by simp, lineNames := by simp, stmts := by simp }

theorem ran_cons_error {σ : Type} {i : Nat} {r : List String} {rows : List (List String)}
    {st st1 : State σ} {new : List ExecCall} {out : List Line} (l : Line)
    (hv : valid r = false) (hl : l.line = i + 1) (hn : l.name = r.getD 3 "")
    (h : Ran (i + 1) rows
      { st with errorCount := st.errorCount + 1, lines := st.lines ++ [l] } st1 new out) :
    Ran i (r :: rows) st st1 new (l :: out) :=
  { calls := h.calls
    lines := by simpa using h.lines
    numbered := h.numbered
    attempts := by simpa [hv] using h.attempts
    successCount := h.successCount
    errorCount := by
      have := h.errorCount
      simp only [List.countP_cons, hv, Bool.not_false, if_true] at this ⊢
      omega
    idCounter := h.idCounter
    lineNumbers := by
      simp only [List.map_cons, hl, List.length_cons, List.range'_succ]
      rw [h.lineNumbers]
    lineNames := by simp [hn, h.lineNames]
    stmts := h.stmts }

theorem ran_cons_call {σ : Type} {i : Nat} {r : List String} {rows : List (List String)}
    {st st1 : State σ} {new : List ExecCall} {out : List Line} (l : Line) (c : ExecCall)
    (d : σ) (hv : valid r = true) (hl : l.line = i + 1) (hn : l.name = r.getD 3 "")
    (hid : c.id = Sprintf04d st.idCounter) (hq : c.stmt = query)
    (h : Ran (i + 1) rows
      { db := d, successCount := st.successCount + (if c.ok = true then 1 else 0),
        errorCount := st.errorCount + (if c.ok = true then 0 else 1),
        idCounter := if c.ok = true then st.idCounter + 1 else st.idCounter,
        lines := st.lines ++ [l], calls := st.calls ++ [c] } st1 new out) :
    Ran i (r :: rows) st st1 (c :: new) (l :: out) :=
  { calls := by simpa using h.calls
    lines := by simpa using h.lines
    numbered := ⟨hid, h.numbered⟩
    attempts := by simpa [hv] using h.attempts
    successCount := by
      have := h.successCount
      simp only [List.countP_cons] at this ⊢
      by_cases hc : c.ok = true <;> simp [hc] at this ⊢ <;> omega
    errorCount := by
      have := h.errorCount
      simp only [List.countP_cons, hv, Bool.not_true] at this ⊢
      by_cases hc : c.ok = true <;> simp [hc] at this ⊢ <;> omega
    idCounter := by
      have := h.idCounter
      simp only [List.countP_cons] at this ⊢
      by_cases hc : c.ok = true <;> simp [hc] at this ⊢ <;> omega
    lineNumbers := by
      simp only [List.map_cons, hl, List.length_cons, List.range'_succ]
      rw [h.lineNumbers]
    lineNames := by simp [hn, h.lineNames]
    stmts := by
      intro x hx
      rcases List.mem_cons.mp hx with hx | hx
      · rw [hx]; exact hq
      · exact h.stmts x hx }

/-- Over rows of at least 34 cells the loop is not stopped, and its final state
is related to the state it started from as `Ran` says. -/
theorem loop_ran {σ : Type} (db : Database σ) :
    ∀ (rows : List (List String)) (i : Nat) (st : State σ), i ≠ 0 →
      (∀ r ∈ rows, 34 ≤ r.length) →
      (loop db i rows st).2 = none ∧
        ∃ new out, Ran i rows st (loop db i rows st).1 new out := by
  intro rows
  induction rows with
  | nil =>
    intro i st _ _
    exact ⟨rfl, [], [], ran_nil i st⟩
  | cons r rows ih =>
    intro i st hi h34
    have hr : 34 ≤ r.length := h34 r (List.mem_cons_self _ _)
    have hrows : ∀ x ∈ rows, 34 ≤ x.length := fun x hx => h34 x (List.mem_cons_of_mem _ hx)
    have hstep : loop db i (r :: rows) st = loop db (i + 1) rows (process db i (cellsOf r) st) := by
      simp [loop, body_of_length db hi hr]
    rw [hstep]
    cases hv : valid r with
    | false =>
      rcases valid_eq_false hv with ⟨e, he⟩ | ⟨lat, e, h1, h2⟩
      · rw [process_lat_error db i _ st he]
        obtain ⟨hnone, new, out, hran⟩ := ih (i + 1) _ (by omega) hrows
        exact ⟨hnone, new, _ :: out,
          ran_cons_error (.latFailed (i + 1) (cellsOf r).name) hv rfl rfl hran⟩
      · rw [process_lon_error db i _ st h1 h2]
        obtain ⟨hnone, new, out, hran⟩ := ih (i + 1) _ (by omega) hrows
        exact ⟨hnone, new, _ :: out,
          ran_cons_error (.lonFailed (i + 1) (cellsOf r).name) hv rfl rfl hran⟩
    | true =>
      obtain ⟨lat, lon, h1, h2⟩ := valid_eq_true hv
      cases hok : (db.Exec st.db query (argsOf st.idCounter (cellsOf r) lat lon)).2 with
      | true =>
        rw [process_insert_ok db i _ st h1 h2 hok]
        obtain ⟨hnone, new, out, hran⟩ := ih (i + 1) _ (by omega) hrows
        exact ⟨hnone, _ :: new, _ :: out,
          ran_cons_call (.registered (i + 1) (cellsOf r).name (Sprintf04d st.idCounter))
            { stmt := query, args := argsOf st.idCounter (cellsOf r) lat lon, ok := true }
            _ hv rfl rfl rfl rfl (by simpa using hran)⟩
      | false =>
        rw [process_insert_failed db i _ st h1 h2 hok]
        obtain ⟨hnone, new, out, hran⟩ := ih (i + 1) _ (by omega) hrows
        exact ⟨hnone, _ :: new, _ :: out,
          ran_cons_call (.insertFailed (i + 1) (cellsOf r).name)
            { stmt := query, args := argsOf st.idCounter (cellsOf r) lat lon, ok := false }
            _ hv rfl rfl rfl rfl (by simpa using hran)⟩

/-- The header is skipped: the loop over a document is the loop over its data
rows from position 1. -/
theorem loop_header {σ : Type} (db : Database σ) (hdr : List String)
    (rows : List (List String)) (st : State σ) :
    loop db 0 (hdr :: rows) st = loop db 1 rows st := by
  simp [loop, body_header]

theorem index_ok_lt {record : List String} {k : Nat} {c : String}
    (h : index record k = .ok c) : k < record.length := by
  unfold index at h
  cases hk : record[k]? with
  | none => simp [hk] at h
  | some x =>
    by_contra hlt
    rw [List.getElem?_eq_none (by omega)] at hk
    simp at hk

theorem extract_ok_length {record : List String} {c : Cells} (h : extract record = .ok c) :
    34 ≤ record.length := by
  unfold extract at h
  repeat (split at h; · simp at h)
  rename_i hurl
  exact index_ok_lt hurl

/-- A row that is processed at all has at least 34 cells. -/
theorem body_ok_length {σ : Type} (db : Database σ) {i : Nat} {record : List String}
    {st st1 : State σ} (hi : i ≠ 0) (h : body db i record st = .ok st1) :
    34 ≤ record.length := by
  unfold body at h
  simp only [hi, if_false] at h
  cases he : extract record with
  | error e => simp [he] at h
  | ok c => exact extract_ok_length he

theorem index_error {record : List String} {k : Nat} {e : Abort}
    (h : index record k = .error e) : e = .indexOutOfRange k record.length := by
  unfold index at h
  split at h
  · simp at h
  · simp only [Except.error.injEq] at h
    exact h.symm

theorem extract_error {record : List String} {e : Abort} (h : extract record = .error e) :
    ∃ k, e = .indexOutOfRange k record.length := by
  unfold extract at h
  repeat (split at h; · (rename_i h1; simp only [Except.error.injEq] at h; subst h; exact ⟨_, index_error h1⟩))
  simp at h

/-- The loop is stopped by a panic only, never by the "no data" condition. -/
theorem loop_stop_ne_noData {σ : Type} (db : Database σ) :
    ∀ (rows : List (List String)) (i : Nat) (st : State σ),
      (loop db i rows st).2 ≠ some Abort.noData := by
  intro rows
  induction rows with
  | nil => intro i st; simp [loop]
  | cons r rows ih =>
    intro i st
    unfold loop
    cases hb : body db i r st with
    | ok st1 => exact ih (i + 1) st1
    | error e =>
      simp only
      unfold body at hb
      by_cases hi : i = 0
      · simp [hi] at hb
      · simp only [hi, if_false] at hb
        cases he : extract r with
        | ok c => simp [he] at hb
        | error e1 =>
          simp only [he, Except.error.injEq] at hb
          obtain ⟨k, hk⟩ := extract_error he
          rw [← hb, hk]
          simp

theorem numbered_filter (cs : List ExecCall) :
    ∀ n, Numbered n cs →
      (cs.filter (fun c => c.ok)).map ExecCall.id
        = (List.range' n (cs.countP (fun c => c.ok))).map Sprintf04d := by
  induction cs with
  | nil => intro n _; simp
  | cons c cs ih =>
    intro n h
    obtain ⟨hid, hrest⟩ := h
    by_cases hc : c.ok = true
    · simp only [hc, if_true] at hrest
      simp [List.filter_cons, List.countP_cons, hc, List.range'_succ, hid, ih _ hrest]
    · simp only [hc, if_false] at hrest
      simp [List.filter_cons, List.countP_cons, hc, ih _ hrest]

/-! ## The run of `main` -/

theorem main_cons {σ : Type} (db : Database σ) (s0 : σ) (hdr : List String)
    (rows : List (List String)) :
    main db s0 (hdr :: rows) =
      if rows = [] then (State.init s0, some Abort.noData) else loop db 1 rows (State.init s0) := by
  cases rows with
  | nil => simp [main]
  | cons r rows => simp [main, loop_header]

theorem main_ran {σ : Type} (db : Database σ) (s0 : σ) (hdr : List String)
    (rows : List (List String)) (h34 : ∀ r ∈ rows, 34 ≤ r.length) :
    (rows ≠ [] → (main db s0 (hdr :: rows)).2 = none) ∧
      ∃ out, Ran 1 rows (State.init s0) (main db s0 (hdr :: rows)).1
        (main db s0 (hdr :: rows)).1.calls out := by
  rw [main_cons]
  by_cases hr : rows = []
  · subst hr
    simp only [if_true]
    exact ⟨fun h => absurd rfl h, [], ran_nil 1 _⟩
  · simp only [hr, if_false]
    obtain ⟨hnone, new, out, hran⟩ := loop_ran db rows 1 (State.init s0) (by omega) h34
    have hc : (loop db 1 rows (State.init s0)).1.calls = new := by
      simpa [State.init] using hran.calls
    rw [hc]
    exact ⟨fun _ => hnone, out, hran⟩

/-- C1: over a document whose N data rows have at least 34 cells each, of which
K fail validation and M of the others have a failing insert, `main` makes one
insert attempt for each of the N-K other rows and ends with
successCount = N-K-M, errorCount = K+M and successCount+errorCount = N,
whichever rows and inserts fail. -/
theorem C1_counts {σ : Type} (db : Database σ) (s0 : σ) (hdr : List String)
    (rows : List (List String)) (h34 : ∀ r ∈ rows, 34 ≤ r.length) :
    (main db s0 (hdr :: rows)).1.calls.length = rows.length - failedValidation rows ∧
    failedValidation rows ≤ rows.length ∧
    failedInserts (main db s0 (hdr :: rows)).1 ≤ rows.length - failedValidation rows ∧
    (main db s0 (hdr :: rows)).1.successCount
      = rows.length - failedValidation rows - failedInserts (main db s0 (hdr :: rows)).1 ∧
    (main db s0 (hdr :: rows)).1.errorCount
      = failedValidation rows + failedInserts (main db s0 (hdr :: rows)).1 ∧
    (main db s0 (hdr :: rows)).1.successCount + (main db s0 (hdr :: rows)).1.errorCount
      = rows.length := by
  obtain ⟨_, out, hran⟩ := main_ran db s0 hdr rows h34
  have h1 := hran.attempts
  have h2 := hran.successCount
  have h3 := hran.errorCount
  have h4 : rows.length = rows.countP valid + rows.countP (fun r => !valid r) := by
    rw [List.length_eq_countP_add_countP valid rows]
    congr 1
    apply List.countP_congr
    intro r _
    simp
  have h5 : (main db s0 (hdr :: rows)).1.calls.length
      = (main db s0 (hdr :: rows)).1.calls.countP (fun c => c.ok)
        + (main db s0 (hdr :: rows)).1.calls.countP (fun c => !c.ok) := by
    rw [List.length_eq_countP_add_countP (fun c => c.ok)]
    congr 1
    apply List.countP_congr
    intro c _
    simp
  simp only [State.init] at h2 h3
  unfold failedValidation failedInserts
  omega

/-- C1 on a document of three data rows: the second fails validation, the
insert of the third fails. -/
theorem C1_counts_witness :
    (∀ r ∈ [rowA, rowB, rowA], 34 ≤ r.length) ∧
    (main dbScript [true, false] (headerRow :: [rowA, rowB, rowA])).1.successCount
      = [rowA, rowB, rowA].length - failedValidation [rowA, rowB, rowA]
        - failedInserts (main dbScript [true, false] (headerRow :: [rowA, rowB, rowA])).1 ∧
    (main dbScript [true, false] (headerRow :: [rowA, rowB, rowA])).1.successCount = 1 ∧
    (main dbScript [true, false] (headerRow :: [rowA, rowB, rowA])).1.errorCount = 2 :=
  ⟨by decide,
   (C1_counts dbScript [true, false] headerRow [rowA, rowB, rowA] (by decide)).2.2.2.1,
   by decide, by decide⟩

/-- C2: over rows of at least 34 cells and for every database, the calls of
`db.Exec` carry the counter that starts at 1 and moves on only after a call
that succeeded (`Numbered`), so the k-th persisted row (k = 1, 2, ...) has the
identifier `Sprintf04d k`, whose digits read back as the number k; the first
is "0001"; as many rows are persisted as successCount says. Rows that fail
validation make no call, rows whose insert fails leave the counter alone. -/
theorem C2_identifiers {σ : Type} (db : Database σ) (s0 : σ) (hdr : List String)
    (rows : List (List String)) (h34 : ∀ r ∈ rows, 34 ≤ r.length) :
    Numbered 1 (main db s0 (hdr :: rows)).1.calls ∧
    (persistedIds (main db s0 (hdr :: rows)).1).length
      = (main db s0 (hdr :: rows)).1.successCount ∧
    (∀ k id, (persistedIds (main db s0 (hdr :: rows)).1)[k]? = some id →
      id = Sprintf04d (k + 1) ∧ decimalValue id = k + 1 ∧ ∀ c ∈ id.data, c.isDigit = true) ∧
    (∀ id, (persistedIds (main db s0 (hdr :: rows)).1)[0]? = some id → id = "0001") ∧
    (main db s0 (hdr :: rows)).1.idCounter = (main db s0 (hdr :: rows)).1.successCount + 1 := by
  obtain ⟨_, out, hran⟩ := main_ran db s0 hdr rows h34
  have hnum : Numbered 1 (main db s0 (hdr :: rows)).1.calls := hran.numbered
  have hids := numbered_filter _ 1 hnum
  have hsucc : (main db s0 (hdr :: rows)).1.successCount
      = (main db s0 (hdr :: rows)).1.calls.countP (fun c => c.ok) := by
    simpa [State.init] using hran.successCount
  have hctr : (main db s0 (hdr :: rows)).1.idCounter
      = 1 + (main db s0 (hdr :: rows)).1.calls.countP (fun c => c.ok) := by
    simpa [State.init] using hran.idCounter
  have hkey : ∀ k id, (persistedIds (main db s0 (hdr :: rows)).1)[k]? = some id →
      id = Sprintf04d (k + 1) := by
    intro k id hk
    unfold persistedIds at hk
    rw [hids, List.getElem?_map] at hk
    cases hr : (List.range' 1 (List.countP (fun c => c.ok)
        (main db s0 (hdr :: rows)).1.calls))[k]? with
    | none => simp [hr] at hk
    | some m =>
      rw [hr] at hk
      simp only [Option.map_some', Option.some.injEq] at hk
      rw [List.getElem?_eq_some] at hr
      obtain ⟨hlt, hm⟩ := hr
      rw [List.getElem_range'] at hm
      rw [← hk, ← hm]
      congr 1
      omega
  refine ⟨hnum, ?_, ?_, ?_, ?_⟩
  · unfold persistedIds
    rw [hids, hsucc]
    simp
  · intro k id hk
    have h := hkey k id hk
    subst h
    exact ⟨rfl, decimalValue_Sprintf04d _, Sprintf04d_isDigit _⟩
  · intro id hk
    rw [hkey 0 id hk]
    rfl
  · omega

/-- C2 on a document of four data rows: the second fails validation, the
insert of the third fails, and the fourth gets the identifier "0002". -/
theorem C2_identifiers_witness :
    (∀ r ∈ [rowA, rowB, rowA, rowA], 34 ≤ r.length) ∧
    (∀ k id, (persistedIds (main dbScript [true, false]
        (headerRow :: [rowA, rowB, rowA, rowA])).1)[k]? = some id →
      id = Sprintf04d (k + 1) ∧ decimalValue id = k + 1 ∧ ∀ c ∈ id.data, c.isDigit = true) ∧
    persistedIds (main dbScript [true, false] (headerRow :: [rowA, rowB, rowA, rowA])).1
      = ["0001", "0002"] :=
  ⟨by decide,
   (C2_identifiers dbScript [true, false] headerRow [rowA, rowB, rowA, rowA] (by decide)).2.2.1,
   by decide⟩

/-- What one row does to the counters: it is persisted and both `successCount`
and `idCounter` go up by one, or it is an error and only `errorCount` does. -/
theorem process_counters {σ : Type} (db : Database σ) (i : Nat) (c : Cells) (st : State σ) :
    ((process db i c st).successCount = st.successCount + 1 ∧
      (process db i c st).errorCount = st.errorCount ∧
      (process db i c st).idCounter = st.idCounter + 1) ∨
    ((process db i c st).successCount = st.successCount ∧
      (process db i c st).errorCount = st.errorCount + 1 ∧
      (process db i c st).idCounter = st.idCounter) := by
  cases h1 : ParseFloat c.latStr with
  | error e => rw [process_lat_error db i c st h1]; simp
  | ok lat =>
    cases h2 : ParseFloat c.lonStr with
    | error e => rw [process_lon_error db i c st h1 h2]; simp
    | ok lon =>
      cases hok : (db.Exec st.db query (argsOf st.idCounter c lat lon)).2 with
      | true => rw [process_insert_ok db i c st h1 h2 hok]; simp
      | false => rw [process_insert_failed db i c st h1 h2 hok]; simp

/-- C10: when every row after the header has at least 34 cells, the seven
cells of every data row can be read, the loop is not stopped, it prints one
line per data row, in document order (line numbers 2, 3, ..., N+1, with the
names of the rows), and every data row changes exactly one of successCount and
errorCount, by exactly 1. -/
theorem C10_no_abort {σ : Type} (db : Database σ) (s0 : σ) (hdr : List String)
    (rows : List (List String)) (h34 : ∀ r ∈ rows, 34 ≤ r.length) :
    (∀ r ∈ rows, extract r = .ok (cellsOf r)) ∧
    (loop db 0 (hdr :: rows) (State.init s0)).2 = none ∧
    (loop db 0 (hdr :: rows) (State.init s0)).1.lines.map Line.line
      = List.range' 2 rows.length ∧
    (loop db 0 (hdr :: rows) (State.init s0)).1.lines.map Line.name
      = rows.map (fun r => r.getD 3 "") ∧
    (∀ (i : Nat) (r : List String) (st : State σ), i ≠ 0 → r ∈ rows →
      ∃ st1, body db i r st = .ok st1 ∧
        ((st1.successCount = st.successCount + 1 ∧ st1.errorCount = st.errorCount) ∨
         (st1.successCount = st.successCount ∧ st1.errorCount = st.errorCount + 1))) := by
  rw [loop_header]
  obtain ⟨hnone, new, out, hran⟩ := loop_ran db rows 1 (State.init s0) (by omega) h34
  have hl : (loop db 1 rows (State.init s0)).1.lines = out := by
    simpa [State.init] using hran.lines
  refine ⟨fun r hr => extract_of_length (h34 r hr), hnone, ?_, ?_, ?_⟩
  · rw [hl]; exact hran.lineNumbers
  · rw [hl]; exact hran.lineNames
  · intro i r st hi hr
    refine ⟨_, body_of_length db hi (h34 r hr) st, ?_⟩
    rcases process_counters db i (cellsOf r) st with h | h
    · exact Or.inl ⟨h.1, h.2.1⟩
    · exact Or.inr ⟨h.1, h.2.1⟩

/-- C10 on a document of three data rows. -/
theorem C10_no_abort_witness :
    (∀ r ∈ [rowA, rowB, rowA], 34 ≤ r.length) ∧
    (loop dbScript 0 (headerRow :: [rowA, rowB, rowA]) (State.init [false])).2 = none ∧
    (loop dbScript 0 (headerRow :: [rowA, rowB, rowA]) (State.init [false])).1.lines.map Line.line
      = List.range' 2 [rowA, rowB, rowA].length :=
  ⟨by decide,
   (C10_no_abort dbScript [false] headerRow [rowA, rowB, rowA] (by decide)).2.1,
   (C10_no_abort dbScript [false] headerRow [rowA, rowB, rowA] (by decide)).2.2.1⟩

/-- C9: on a document of fewer than two rows `main` stops with the "no data"
condition before the loop: no call of `db.Exec`, no line, the counters and the
database as they were. On a document of at least two rows that condition is
not raised, and the run is the loop over the rows after the first, from
position 1, in the initial state: the header takes no part in it, whatever it
holds. -/
theorem C9_no_data {σ : Type} (db : Database σ) (s0 : σ) (records : List (List String)) :
    (records.length < 2 →
      main db s0 records = (State.init s0, some Abort.noData) ∧
      (main db s0 records).1.calls = [] ∧ (main db s0 records).1.lines = [] ∧
      (main db s0 records).1.successCount = 0 ∧ (main db s0 records).1.errorCount = 0 ∧
      (main db s0 records).1.db = s0) ∧
    (2 ≤ records.length →
      (main db s0 records).2 ≠ some Abort.noData ∧
      ∀ hdr rows, records = hdr :: rows →
        main db s0 records = loop db 1 rows (State.init s0) ∧
        ∀ hdr1 : List String, main db s0 (hdr1 :: rows) = main db s0 records) := by
  constructor
  · intro h
    have hm : main db s0 records = (State.init s0, some Abort.noData) := by
      simp [main, h]
    rw [hm]
    exact ⟨rfl, rfl, rfl, rfl, rfl, rfl⟩
  · intro h
    have hm : main db s0 records = loop db 0 records (State.init s0) := by
      have : ¬ records.length < 2 := by omega
      simp [main, this]
    refine ⟨?_, ?_⟩
    · rw [hm]; exact loop_stop_ne_noData db records 0 _
    · intro hdr rows hrec
      subst hrec
      have hne : rows ≠ [] := by
        intro hnil
        subst hnil
        simp at h
      refine ⟨?_, ?_⟩
      · rw [main_cons]; simp [hne]
      · intro hdr1
        rw [main_cons, main_cons]

/-- C9 on the empty document, on a header alone, and on a header with one row
whose header has no cell at all. -/
theorem C9_no_data_witness :
    ([] : List (List String)).length < 2 ∧ [headerRow].length < 2 ∧ 2 ≤ [[], rowA].length ∧
    main (dbAlways true) () [] = (State.init (), some Abort.noData) ∧
    main (dbAlways true) () [headerRow] = (State.init (), some Abort.noData) ∧
    (main (dbAlways true) () [[], rowA]).2 ≠ some Abort.noData ∧
    (main (dbAlways true) () [[], rowA]).1.successCount = 1 :=
  ⟨by decide, by decide, by decide,
   ((C9_no_data (dbAlways true) () []).1 (by decide)).1,
   ((C9_no_data (dbAlways true) () [headerRow]).1 (by decide)).1,
   ((C9_no_data (dbAlways true) () [[], rowA]).2 (by decide)).1,
   by decide⟩

/-! ## One row: validation and the insert -/

theorem length_mkRow (name nameKana address lat lon tel url : String) :
    (mkRow name nameKana address lat lon tel url).length = 34 := rfl

theorem cellsOf_mkRow (name nameKana address lat lon tel url : String) :
    cellsOf (mkRow name nameKana address lat lon tel url)
      = { name := name, nameKana := nameKana, address := address, latStr := lat,
          lonStr := lon, tel := tel, url := url } := rfl

/-- C3 as stated fails: a data row of 20 cells whose latitude cell (index 14)
is the text xx is not counted as an error. `main` reads cell 33 before it
converts the latitude, so the step panics with an index out of range, and the
run stops with errorCount still 0. -/
theorem C3_short_row_panics :
    (List.replicate 20 "xx").length = 20 ∧
    accepted ((List.replicate 20 "xx").getD 14 "") = false ∧
    body (dbAlways true) 1 (List.replicate 20 "xx") (State.init ())
      = .error (Abort.indexOutOfRange 33 20) ∧
    (main (dbAlways true) () [List.replicate 20 "h", List.replicate 20 "xx"]).2
      = some (Abort.indexOutOfRange 33 20) ∧
    (main (dbAlways true) () [List.replicate 20 "h", List.replicate 20 "xx"]).1.errorCount
      = 0 :=
  ⟨rfl, rfl, rfl, rfl, rfl⟩

/-- C3, amended: for a row of at least 34 cells whose latitude cell (index 14)
is rejected by `strconv.ParseFloat`, whatever the row holds elsewhere, one step
of the loop adds 1 to errorCount and prints the latitude line; successCount,
idCounter, the database and the calls of `db.Exec` stay as they were. And on
the rows [A, B], A with coordinates (35.0, 139.0) and a successful insert, B
with latitude xx, the one call carries "0001", successCount = 1 and
errorCount = 1. -/
theorem C3_latitude_rejected {σ : Type} (db : Database σ) (i : Nat) (record : List String)
    (st : State σ) (hi : i ≠ 0) (h34 : 34 ≤ record.length)
    (hlat : accepted (record.getD 14 "") = false) :
    body db i record st =
      .ok { db := st.db, successCount := st.successCount, errorCount := st.errorCount + 1,
            idCounter := st.idCounter,
            lines := st.lines ++ [.latFailed (i + 1) (record.getD 3 "")],
            calls := st.calls } ∧
    (∀ (s0 : σ) (hdr : List String) (n1 k1 a1 t1 u1 n2 k2 a2 lon2 t2 u2 : String),
      (db.Exec s0 query (argsOf 1 (cellsOf (mkRow n1 k1 a1 "35.0" "139.0" t1 u1))
        (Float64.finite false 350 10 (-1)) (Float64.finite false 1390 10 (-1)))).2 = true →
      (main db s0 [hdr, mkRow n1 k1 a1 "35.0" "139.0" t1 u1,
          mkRow n2 k2 a2 "xx" lon2 t2 u2]).2 = none ∧
      (main db s0 [hdr, mkRow n1 k1 a1 "35.0" "139.0" t1 u1,
          mkRow n2 k2 a2 "xx" lon2 t2 u2]).1.calls.map (fun c => (c.id, c.ok))
        = [("0001", true)] ∧
      (main db s0 [hdr, mkRow n1 k1 a1 "35.0" "139.0" t1 u1,
          mkRow n2 k2 a2 "xx" lon2 t2 u2]).1.successCount = 1 ∧
      (main db s0 [hdr, mkRow n1 k1 a1 "35.0" "139.0" t1 u1,
          mkRow n2 k2 a2 "xx" lon2 t2 u2]).1.errorCount = 1 ∧
      (main db s0 [hdr, mkRow n1 k1 a1 "35.0" "139.0" t1 u1,
          mkRow n2 k2 a2 "xx" lon2 t2 u2]).1.idCounter = 2) := by
  constructor
  · obtain ⟨e, he⟩ := accepted_eq_false.mp hlat
    rw [body_of_length db hi h34, process_lat_error db i _ st (e := e) he]
    rfl
  · intro s0 hdr n1 k1 a1 t1 u1 n2 k2 a2 lon2 t2 u2 hok
    have hA1 : ParseFloat (cellsOf (mkRow n1 k1 a1 "35.0" "139.0" t1 u1)).latStr
        = .ok (Float64.finite false 350 10 (-1)) := by
      show ParseFloat "35.0" = _
      rfl
    have hA2 : ParseFloat (cellsOf (mkRow n1 k1 a1 "35.0" "139.0" t1 u1)).lonStr
        = .ok (Float64.finite false 1390 10 (-1)) := by
      show ParseFloat "139.0" = _
      rfl
    have hB : ParseFloat (cellsOf (mkRow n2 k2 a2 "xx" lon2 t2 u2)).latStr
        = .error NumError.ErrSyntax := by
      show ParseFloat "xx" = _
      rfl
    have hrun : main db s0 [hdr, mkRow n1 k1 a1 "35.0" "139.0" t1 u1,
          mkRow n2 k2 a2 "xx" lon2 t2 u2]
        = (process db 2 (cellsOf (mkRow n2 k2 a2 "xx" lon2 t2 u2))
            (process db 1 (cellsOf (mkRow n1 k1 a1 "35.0" "139.0" t1 u1)) (State.init s0)),
           none) := by
      rw [main_cons]
      simp only [List.cons_ne_nil, if_false, loop]
      rw [body_of_length db (by omega) (by rw [length_mkRow])]
      simp only []
      rw [body_of_length db (by omega) (by rw [length_mkRow])]
    rw [hrun, process_insert_ok db 1 _ _ hA1 hA2 hok, process_lat_error db 2 _ _ hB]
    refine ⟨rfl, ?_, rfl, rfl, rfl⟩
    simp [State.init, ExecCall.id, argsOf]
    decide

/-- C3, amended, on the row B, whose latitude cell is xx, at position 2 after
one persisted row. -/
theorem C3_latitude_rejected_witness :
    (2 : Nat) ≠ 0 ∧ 34 ≤ rowB.length ∧ accepted (rowB.getD 14 "") = false ∧
    body (dbAlways true) 2 rowB
        { db := (), successCount := 1, errorCount := 0, idCounter := 2, lines := [],
          calls := [] } =
      .ok { db := (), successCount := 1, errorCount := 0 + 1, idCounter := 2,
            lines := [] ++ [.latFailed (2 + 1) (rowB.getD 3 "")], calls := [] } ∧
    (main (dbAlways true) () [headerRow, rowA, rowB]).1.calls.map (fun c => (c.id, c.ok))
      = [("0001", true)] ∧
    (main (dbAlways true) () [headerRow, rowA, rowB]).1.successCount = 1 ∧
    (main (dbAlways true) () [headerRow, rowA, rowB]).1.errorCount = 1 :=
  ⟨by decide, by decide, by decide,
   (C3_latitude_rejected (dbAlways true) 2 rowB
      { db := (), successCount := 1, errorCount := 0, idCounter := 2, lines := [],
        calls := [] } (by decide) (by decide) (by decide)).1,
   ((C3_latitude_rejected (dbAlways true) 2 rowB
      { db := (), successCount := 1, errorCount := 0, idCounter := 2, lines := [],
        calls := [] } (by decide) (by decide) (by decide)).2
      () headerRow "A" "a" "addr" "" "" "B" "b" "addr" "139.0" "076" "http://b" rfl).2.1,
   ((C3_latitude_rejected (dbAlways true) 2 rowB
      { db := (), successCount := 1, errorCount := 0, idCounter := 2, lines := [],
        calls := [] } (by decide) (by decide) (by decide)).2
      () headerRow "A" "a" "addr" "" "" "B" "b" "addr" "139.0" "076" "http://b" rfl).2.2.1,
   ((C3_latitude_rejected (dbAlways true) 2 rowB
      { db := (), successCount := 1, errorCount := 0, idCounter := 2, lines := [],
        calls := [] } (by decide) (by decide) (by decide)).2
      () headerRow "A" "a" "addr" "" "" "B" "b" "addr" "139.0" "076" "http://b" rfl).2.2.2.1⟩

/-- The one call a row that passes validation adds. -/
theorem process_valid_call {σ : Type} (db : Database σ) (i : Nat) (c : Cells) (st : State σ)
    {lat lon : Float64} (h1 : ParseFloat c.latStr = .ok lat) (h2 : ParseFloat c.lonStr = .ok lon) :
    (process db i c st).calls = st.calls ++
      [{ stmt := query, args := argsOf st.idCounter c lat lon,
         ok := (db.Exec st.db query (argsOf st.idCounter c lat lon)).2 }] := by
  cases hok : (db.Exec st.db query (argsOf st.idCounter c lat lon)).2 with
  | true => rw [process_insert_ok db i c st h1 h2 hok]
  | false => rw [process_insert_failed db i c st h1 h2 hok]

theorem stored_columns (n : Nat) (c : Cells) (lat lon : Float64) :
    query.stored (argsOf n c lat lon) "id" = some (.text (Sprintf04d n)) ∧
    query.stored (argsOf n c lat lon) "name" = some (.text c.name) ∧
    query.stored (argsOf n c lat lon) "name_kana" = some (.text c.nameKana) ∧
    query.stored (argsOf n c lat lon) "address" = some (.text c.address) ∧
    query.stored (argsOf n c lat lon) "lat" = some (.float lat) ∧
    query.stored (argsOf n c lat lon) "lon" = some (.float lon) ∧
    query.stored (argsOf n c lat lon) "url"
      = some (if c.url = "" then SqlValue.null else .text c.url) ∧
    query.stored (argsOf n c lat lon) "tel"
      = some (if c.tel = "" then SqlValue.null else .text c.tel) := by
  refine ⟨rfl, rfl, rfl, rfl, rfl, rfl, ?_, ?_⟩
  · show (if c.url = "" then some SqlValue.null else some (SqlValue.text c.url)) = _
    split <;> rfl
  · show (if c.tel = "" then some SqlValue.null else some (SqlValue.text c.tel)) = _
    split <;> rfl

/-- C4: a row that is processed and passes validation adds one call of
`db.Exec`, with the statement of `main`; that statement stores NULL in url
exactly when cell 33 is the empty string and NULL in tel exactly when cell 17
is, otherwise the text of the cell; name, name_kana and address are stored as
the texts of cells 3, 4 and 8, the empty string included, never as NULL. -/
theorem C4_null_if_empty {σ : Type} (db : Database σ) (i : Nat) (record : List String)
    (st st1 : State σ) (hi : i ≠ 0) (hbody : body db i record st = .ok st1)
    (hv : valid record = true) :
    ∃ call, st1.calls = st.calls ++ [call] ∧ call.stmt = query ∧
      (call.stmt.stored call.args "url" = some SqlValue.null ↔ record.getD 33 "" = "") ∧
      (record.getD 33 "" ≠ "" →
        call.stmt.stored call.args "url" = some (.text (record.getD 33 ""))) ∧
      (call.stmt.stored call.args "tel" = some SqlValue.null ↔ record.getD 17 "" = "") ∧
      (record.getD 17 "" ≠ "" →
        call.stmt.stored call.args "tel" = some (.text (record.getD 17 ""))) ∧
      call.stmt.stored call.args "name" = some (.text (record.getD 3 "")) ∧
      call.stmt.stored call.args "name_kana" = some (.text (record.getD 4 "")) ∧
      call.stmt.stored call.args "address" = some (.text (record.getD 8 "")) := by
  have h34 := body_ok_length db hi hbody
  rw [body_of_length db hi h34] at hbody
  simp only [Except.ok.injEq] at hbody
  subst hbody
  obtain ⟨lat, lon, h1, h2⟩ := valid_eq_true hv
  refine ⟨_, process_valid_call db i _ st h1 h2, rfl, ?_⟩
  obtain ⟨_, hn, hk, ha, _, _, hu, ht⟩ := stored_columns st.idCounter (cellsOf record) lat lon
  simp only []
  refine ⟨?_, ?_, ?_, ?_, hn, hk, ha⟩
  · rw [hu]
    show _ ↔ (cellsOf record).url = ""
    by_cases he : (cellsOf record).url = "" <;> simp [he]
  · intro hne
    have he : ¬ (cellsOf record).url = "" := hne
    rw [hu, if_neg he]
    rfl
  · rw [ht]
    show _ ↔ (cellsOf record).tel = ""
    by_cases he : (cellsOf record).tel = "" <;> simp [he]
  · intro hne
    have he : ¬ (cellsOf record).tel = "" := hne
    rw [ht, if_neg he]
    rfl

/-- C4 on the row A, whose telephone and url cells are empty. -/
theorem C4_null_if_empty_witness :
    (1 : Nat) ≠ 0 ∧ valid rowA = true ∧
    ∃ call, (process (dbAlways true) 1 (cellsOf rowA) (State.init ())).calls
        = (State.init ()).calls ++ [call] ∧ call.stmt = query ∧
      (call.stmt.stored call.args "url" = some SqlValue.null ↔ rowA.getD 33 "" = "") ∧
      (rowA.getD 33 "" ≠ "" →
        call.stmt.stored call.args "url" = some (.text (rowA.getD 33 ""))) ∧
      (call.stmt.stored call.args "tel" = some SqlValue.null ↔ rowA.getD 17 "" = "") ∧
      (rowA.getD 17 "" ≠ "" →
        call.stmt.stored call.args "tel" = some (.text (rowA.getD 17 ""))) ∧
      call.stmt.stored call.args "name" = some (.text (rowA.getD 3 "")) ∧
      call.stmt.stored call.args "name_kana" = some (.text (rowA.getD 4 "")) ∧
      call.stmt.stored call.args "address" = some (.text (rowA.getD 8 "")) :=
  ⟨by decide, by decide,
   C4_null_if_empty (dbAlways true) 1 rowA (State.init ()) _ (by decide)
     (body_of_length (dbAlways true) (by decide) (by decide) _) (by decide)⟩

theorem bound_columns (n : Nat) (c : Cells) (lat lon : Float64) :
    query.columns.map (query.bound (argsOf n c lat lon))
      = (argsOf n c lat lon).map some := rfl

/-- C5: a row of at least 34 cells that passes validation is processed with
exactly one call of `db.Exec`; the call has the statement of `main`, whose
column list is (id, name, name_kana, address, lat, lon, url, tel), and the
arguments (formatted idCounter, cell 3, cell 4, cell 8, parsed cell 14, parsed
cell 15, cell 33, cell 17); the k-th column is fed by the k-th argument, so url
is fed by cell 33 and tel by cell 17. -/
theorem C5_binding {σ : Type} (db : Database σ) (i : Nat) (record : List String)
    (st : State σ) (lat lon : Float64) (hi : i ≠ 0) (h34 : 34 ≤ record.length)
    (h1 : ParseFloat (record.getD 14 "") = .ok lat)
    (h2 : ParseFloat (record.getD 15 "") = .ok lon) :
    ∃ st1 call, body db i record st = .ok st1 ∧ st1.calls = st.calls ++ [call] ∧
      call.stmt = query ∧
      call.stmt.columns = ["id", "name", "name_kana", "address", "lat", "lon", "url", "tel"] ∧
      call.args = [.text (Sprintf04d st.idCounter), .text (record.getD 3 ""),
        .text (record.getD 4 ""), .text (record.getD 8 ""), .float lat, .float lon,
        .text (record.getD 33 ""), .text (record.getD 17 "")] ∧
      call.stmt.columns.map (call.stmt.bound call.args) = call.args.map some ∧
      call.stmt.bound call.args "url" = some (.text (record.getD 33 "")) ∧
      call.stmt.bound call.args "tel" = some (.text (record.getD 17 "")) := by
  refine ⟨_, _, body_of_length db hi h34 st,
    @process_valid_call σ db i (cellsOf record) st lat lon h1 h2,
    rfl, rfl, rfl, rfl, rfl, rfl⟩

/-- C5 on the row A at position 1, in the initial state. -/
theorem C5_binding_witness :
    (1 : Nat) ≠ 0 ∧ 34 ≤ rowA.length ∧
    ParseFloat (rowA.getD 14 "") = .ok (Float64.finite false 350 10 (-1)) ∧
    ParseFloat (rowA.getD 15 "") = .ok (Float64.finite false 1390 10 (-1)) ∧
    ∃ st1 call, body (dbAlways true) 1 rowA (State.init ()) = .ok st1 ∧
      st1.calls = (State.init ()).calls ++ [call] ∧
      call.stmt = query ∧
      call.stmt.columns = ["id", "name", "name_kana", "address", "lat", "lon", "url", "tel"] ∧
      call.args = [.text (Sprintf04d (State.init ()).idCounter), .text (rowA.getD 3 ""),
        .text (rowA.getD 4 ""), .text (rowA.getD 8 ""),
        .float (Float64.finite false 350 10 (-1)), .float (Float64.finite false 1390 10 (-1)),
        .text (rowA.getD 33 ""), .text (rowA.getD 17 "")] ∧
      call.stmt.columns.map (call.stmt.bound call.args) = call.args.map some ∧
      call.stmt.bound call.args "url" = some (.text (rowA.getD 33 "")) ∧
      call.stmt.bound call.args "tel" = some (.text (rowA.getD 17 "")) :=
  ⟨by decide, by decide, rfl, rfl,
   C5_binding (dbAlways true) 1 rowA (State.init ()) _ _ (by decide) (by decide) rfl rfl⟩

/-! ## What strconv.ParseFloat accepts -/

theorem commonPrefixLen_take :
    ∀ (s p : List Char),
      commonPrefixLenIgnoreCase s p ≤ s.length ∧
      commonPrefixLenIgnoreCase s p ≤ p.length ∧
      (s.take (commonPrefixLenIgnoreCase s p)).map Char.toLower
        = p.take (commonPrefixLenIgnoreCase s p) := by
  intro s
  induction s with
  | nil => intro p; simp [commonPrefixLenIgnoreCase]
  | cons c s ih =>
    intro p
    cases p with
    | nil => simp [commonPrefixLenIgnoreCase]
    | cons q p =>
      unfold commonPrefixLenIgnoreCase
      by_cases hc : c.toLower = q
      · obtain ⟨h1, h2, h3⟩ := ih p
        simp only [hc, if_true, List.length_cons, List.take_succ_cons, List.map_cons, h3]
        exact ⟨by omega, by omega, trivial⟩
      · simp [hc]

theorem specialInf_full {neg : Bool} {k m : Nat} {r : List Char} {v : Float64}
    (h : specialInf neg k r = some (v, m)) (hm : m = k + r.length) :
    v = Float64.inf neg ∧
      (r.map Char.toLower = ['i', 'n', 'f'] ∨
       r.map Char.toLower = ['i', 'n', 'f', 'i', 'n', 'i', 't', 'y']) := by
  unfold specialInf at h
  obtain ⟨h1, _, h3⟩ := commonPrefixLen_take r ['i', 'n', 'f', 'i', 'n', 'i', 't', 'y']
  generalize commonPrefixLenIgnoreCase r ['i', 'n', 'f', 'i', 'n', 'i', 't', 'y'] = m0 at h h1 h3
  simp only at h
  by_cases hmid : 3 < m0 ∧ m0 < 8
  · simp only [hmid, and_self, if_true, true_or, Option.some.injEq, Prod.mk.injEq] at h
    omega
  · simp only [hmid, if_false] at h
    split at h
    · rename_i h38
      simp only [Option.some.injEq, Prod.mk.injEq] at h
      have hlen : r.length = m0 := by omega
      rw [← hlen, List.take_length] at h3
      refine ⟨h.1.symm, ?_⟩
      rcases h38 with h38 | h38
      · left; rw [h3, hlen, h38]; rfl
      · right; rw [h3, hlen, h38]; rfl
    · simp at h

theorem special_full {s : List Char} {v : Float64} (h : special s = some (v, s.length)) :
    v.isFinite = false ∧ String.mk (s.map Char.toLower) ∈ specialWords := by
  cases s with
  | nil => simp [special] at h
  | cons c rest =>
    unfold special at h
    simp only at h
    split at h
    · rename_i hsign
      obtain ⟨hv, hw⟩ := specialInf_full h (by simp [Nat.add_comm])
      subst hv
      refine ⟨rfl, ?_⟩
      rcases hsign with hc | hc <;> subst hc <;> rcases hw with hw | hw <;>
        simp only [List.map_cons, hw] <;> decide
    · split at h
      · obtain ⟨hv, hw⟩ := specialInf_full h (by simp)
        subst hv
        refine ⟨rfl, ?_⟩
        rcases hw with hw | hw <;> rw [hw] <;> decide
      · split at h
        · split at h
          · rename_i h3
            simp only [Option.some.injEq, Prod.mk.injEq] at h
            obtain ⟨_, _, ht⟩ := commonPrefixLen_take (c :: rest) ['n', 'a', 'n']
            have hlen : (c :: rest).length ≤ 3 := by omega
            rw [h3, List.take_of_length_le hlen] at ht
            rw [ht, ← h.1]
            exact ⟨rfl, by decide⟩
          · simp at h
        · simp at h

theorem readDigits_sawdigits (base : Nat) :
    ∀ (s : List Char) (d : Digits), (readDigits base s d).1.sawdigits = true →
      d.sawdigits = true ∨ (∃ c ∈ s, c.isDigit = true) ∨ base = 16 := by
  intro s
  induction s with
  | nil => intro d h; left; simpa [readDigits] using h
  | cons c cs ih =>
    intro d h
    unfold readDigits at h
    split at h
    · rcases ih _ h with h1 | ⟨x, hx, hd⟩ | h1
      · exact Or.inl h1
      · exact Or.inr (Or.inl ⟨x, List.mem_cons_of_mem _ hx, hd⟩)
      · exact Or.inr (Or.inr h1)
    · split at h
      · split at h
        · exact Or.inl h
        · rcases ih _ h with h1 | ⟨x, hx, hd⟩ | h1
          · exact Or.inl h1
          · exact Or.inr (Or.inl ⟨x, List.mem_cons_of_mem _ hx, hd⟩)
          · exact Or.inr (Or.inr h1)
      · split at h
        · rename_i hdig
          exact Or.inr (Or.inl ⟨c, List.mem_cons_self _ _, hdig⟩)
        · split at h
          · rename_i h16
            exact Or.inr (Or.inr h16.1)
          · exact Or.inl h

theorem readDigits_count (base : Nat) :
    ∀ (s : List Char) (d : Digits),
      s.count '.' ≤ (readDigits base s d).2.count '.' + (if d.sawdot = true then 0 else 1) := by
  intro s
  induction s with
  | nil => intro d; simp [readDigits]
  | cons c cs ih =>
    intro d
    unfold readDigits
    split
    · rename_i hc
      have := ih { d with underscores := true }
      subst hc
      simpa using this
    · split
      · rename_i hc
        subst hc
        split
        · simp
        · rename_i hs
          have := ih { d with sawdot := true, dp := d.nd }
          simp only [if_true, Nat.add_zero] at this
          simp only [hs, List.count_cons_self, if_false]
          omega
      · rename_i hc
        have hne : (c == '.') = false := by
          simp only [beq_eq_false_iff_ne, ne_eq]
          exact hc
        split
        · split
          · have := ih { d with sawdigits := true, dp := d.dp - 1 }
            rw [List.count_cons, hne]
            simpa using this
          · have := ih { d with sawdigits := true, nd := d.nd + 1,
                                  mantissa := d.mantissa * base + (c.toNat - 48) }
            rw [List.count_cons, hne]
            simpa using this
        · split
          · have := ih { d with sawdigits := true, nd := d.nd + 1,
                                  mantissa := d.mantissa * 16 + (lower c - 97 + 10) }
            rw [List.count_cons, hne]
            simpa using this
          · simp

theorem readExpDigits_nil :
    ∀ (s : List Char) (e : Nat) (u : Bool), (readExpDigits s e u).2.2 = [] →
      s.count '.' = 0 := by
  intro s
  induction s with
  | nil => intro e u _; rfl
  | cons c cs ih =>
    intro e u h
    unfold readExpDigits at h
    split at h
    · rename_i hd
      have hne : c ≠ '.' := by
        intro hc; subst hc; exact absurd hd (by decide)
      rw [List.count_cons_of_ne hne.symm]
      exact ih _ _ h
    · split at h
      · rename_i hc
        subst hc
        rw [List.count_cons_of_ne (by decide)]
        exact ih _ _ h
      · simp at h

theorem lower_dot : lower '.' = 46 := by decide

theorem readExponent_nil {hexa : Bool} {d : Digits} {dp dp1 : Int} {u : Bool} {s : List Char}
    (h : readExponent hexa d dp s = some (dp1, u, [])) : s.count '.' = 0 := by
  cases s with
  | nil => rfl
  | cons c t =>
    unfold readExponent at h
    simp only at h
    by_cases hexp : lower c = (if hexa = true then 112 else 101)
    · have hc : '.' ≠ c := by
        intro hc
        subst hc
        rw [lower_dot] at hexp
        cases hexa <;> simp at hexp
      rw [List.count_cons_of_ne hc]
      simp only [hexp, if_true] at h
      cases t with
      | nil => simp at h
      | cons c1 t1 =>
        simp only at h
        by_cases hsign : c1 = '+' ∨ c1 = '-'
        · have hc1 : '.' ≠ c1 := by
            intro hc1
            subst hc1
            revert hsign
            decide
          rw [List.count_cons_of_ne hc1]
          simp only [hsign, if_true] at h
          cases t1 with
          | nil => simp at h
          | cons c2 t2 =>
            simp only at h
            split at h
            · simp only [Option.some.injEq, Prod.mk.injEq] at h
              exact readExpDigits_nil _ _ _ h.2.2
            · simp at h
        · simp only [hsign, if_false] at h
          split at h
          · simp only [Option.some.injEq, Prod.mk.injEq] at h
            exact readExpDigits_nil _ _ _ h.2.2
          · simp at h
    · simp only [hexp, if_false] at h
      split at h
      · simp at h
      · simp at h

theorem readNumber_full {s s2 : List Char} {neg hexa : Bool} {r : ReadFloat}
    (h : readNumber s neg hexa s2 = some r) (hn : r.n = s.length) (hs : 0 < s.length) :
    ((∃ c ∈ s2, c.isDigit = true) ∨ hexa = true) ∧ s2.count '.' ≤ 1 := by
  unfold readNumber at h
  have hsaw := readDigits_sawdigits (if hexa = true then 16 else 10) s2 {}
  have hcount := readDigits_count (if hexa = true then 16 else 10) s2 {}
  generalize readDigits (if hexa = true then 16 else 10) s2 {} = rd at h hsaw hcount
  simp only at h
  split at h
  · simp at h
  · rename_i hd
    have hd1 : rd.1.sawdigits = true := by simpa using hd
    constructor
    · rcases hsaw hd1 with h1 | h1 | h1
      · simp at h1
      · exact Or.inl h1
      · right
        cases hexa with
        | true => rfl
        | false => simp at h1
    · split at h
      · simp at h
      · rename_i dp1 u rest hexp
        split at h
        · simp at h
        · simp only [Option.some.injEq] at h
          subst h
          simp only at hn
          have hrest : rest = [] := by
            apply List.eq_nil_of_length_eq_zero
            omega
          subst hrest
          have := readExponent_nil hexp
          simp at hcount
          omega

theorem readFloat_full {s : List Char} {r : ReadFloat} (h : readFloat s = some r)
    (hn : r.n = s.length) : (∃ c ∈ s, c.isDigit = true) ∧ s.count '.' ≤ 1 := by
  cases s with
  | nil => simp [readFloat] at h
  | cons c t =>
    unfold readFloat at h
    simp only at h
    have key : ∀ s1 : List Char, (∀ x ∈ s1, x ∈ c :: t) →
        (c :: t).count '.' = s1.count '.' →
        readNumber (c :: t) (decide (c = '-')) (hexPrefix s1)
          (if hexPrefix s1 = true then s1.drop 2 else s1) = some r →
        (∃ x ∈ c :: t, x.isDigit = true) ∧ (c :: t).count '.' ≤ 1 := by
      intro s1 hsub hcnt hnum
      obtain ⟨hdig, hdots⟩ := readNumber_full hnum hn (by simp)
      by_cases hx : hexPrefix s1 = true
      · simp only [hx, if_true] at hdots
        match s1, hx with
        | c0 :: c1 :: c2 :: rest, hx =>
          simp only [hexPrefix, Bool.decide_and, Bool.and_eq_true, decide_eq_true_eq] at hx
          obtain ⟨h0, h1⟩ := hx
          subst h0
          constructor
          · exact ⟨'0', hsub _ (List.mem_cons_self _ _), by decide⟩
          · have hc1 : '.' ≠ c1 := by
              intro hc1
              subst hc1
              rw [lower_dot] at h1
              omega
            rw [hcnt, List.count_cons_of_ne (by decide), List.count_cons_of_ne hc1]
            simpa using hdots
      · simp only [hx, if_false] at hdots
        constructor
        · rcases hdig with ⟨x, hxm, hxd⟩ | hh
          · simp only [hx, if_false] at hxm
            exact ⟨x, hsub x hxm, hxd⟩
          · exact absurd hh hx
        · rw [hcnt]; exact hdots
    by_cases hsign : c = '+' ∨ c = '-'
    · simp only [hsign, if_true] at h
      have hc : '.' ≠ c := by
        intro hc
        subst hc
        revert hsign
        decide
      exact key t (fun x hx => List.mem_cons_of_mem _ hx) (List.count_cons_of_ne hc _) h
    · simp only [hsign, if_false] at h
      exact key (c :: t) (fun x hx => hx) rfl h

/-! ## Accepted texts are numeric texts or special spellings -/

theorem lt_of_lor_lt {n : Nat} (h : n ||| 32 < 128) : n < 128 := by
  apply Nat.lt_pow_two_of_testBit n (n := 7)
  intro i hi
  have hlt : n ||| 32 < 2 ^ i :=
    Nat.lt_of_lt_of_le h (Nat.pow_le_pow_right (show 0 < 2 by decide) hi)
  have := Nat.testBit_lt_two_pow hlt
  rw [Nat.testBit_or, Bool.or_eq_false_iff] at this
  exact this.1

theorem lor_cases : ∀ n < 128,
    (n ||| 32 = 101 → n = 69 ∨ n = 101) ∧ (n ||| 32 = 112 → n = 80 ∨ n = 112) ∧
    (n ||| 32 = 120 → n = 88 ∨ n = 120) ∧
    (97 ≤ n ||| 32 → n ||| 32 ≤ 102 → (97 ≤ n ∧ n ≤ 102) ∨ (65 ≤ n ∧ n ≤ 70)) := by
  decide

theorem char_of_toNat {c : Char} {n : Nat} (h : c.toNat = n) : c = Char.ofNat n := by
  rw [← h, Char.ofNat_toNat]

theorem lower_eq_e {c : Char} (h : lower c = 101) : c = 'e' ∨ c = 'E' := by
  unfold lower at h
  have hlt := lt_of_lor_lt (n := c.toNat) (by omega)
  rcases (lor_cases _ hlt).1 h with h1 | h1
  · right; exact char_of_toNat h1
  · left; exact char_of_toNat h1

theorem lower_eq_p {c : Char} (h : lower c = 112) : c = 'p' ∨ c = 'P' := by
  unfold lower at h
  have hlt := lt_of_lor_lt (n := c.toNat) (by omega)
  rcases (lor_cases _ hlt).2.1 h with h1 | h1
  · right; exact char_of_toNat h1
  · left; exact char_of_toNat h1

theorem lower_eq_x {c : Char} (h : lower c = 120) : c = 'x' ∨ c = 'X' := by
  unfold lower at h
  have hlt := lt_of_lor_lt (n := c.toNat) (by omega)
  rcases (lor_cases _ hlt).2.2.1 h with h1 | h1
  · right; exact char_of_toNat h1
  · left; exact char_of_toNat h1

theorem lower_hex {c : Char} (h1 : 97 ≤ lower c) (h2 : lower c ≤ 102) :
    isHexDigit c = true := by
  unfold lower at h1 h2
  have hlt := lt_of_lor_lt (n := c.toNat) (by omega)
  have := (lor_cases _ hlt).2.2.2 h1 h2
  unfold isHexDigit
  simp only [Bool.or_eq_true, Bool.and_eq_true, decide_eq_true_eq]
  rcases this with h | h
  · exact Or.inl (Or.inr h)
  · exact Or.inr h

/-- The characters the digit loop reads in base `base`. -/
theorem readDigits_split (base : Nat) :
    ∀ (s : List Char) (d : Digits),
      ∃ pre, s = pre ++ (readDigits base s d).2 ∧
        (∀ c ∈ pre, c.isDigit = true ∨ c = '.' ∨ c = '_' ∨
          (base = 16 ∧ 97 ≤ lower c ∧ lower c ≤ 102)) ∧
        ((readDigits base s d).1.sawdigits = true → d.sawdigits = true ∨
          ∃ c ∈ pre, c.isDigit = true ∨ (base = 16 ∧ 97 ≤ lower c ∧ lower c ≤ 102)) ∧
        pre.count '.' ≤ 1 ∧ (d.sawdot = true → pre.count '.' = 0) ∧
        (d.underscores = true ∨ '_' ∈ pre → (readDigits base s d).1.underscores = true) := by
  intro s
  induction s with
  | nil =>
    intro d
    exact ⟨[], by simp [readDigits], by simp, fun h => Or.inl (by simpa [readDigits] using h),
      by simp, by simp, by simp [readDigits]⟩
  | cons c cs ih =>
    intro d
    have ext : ∀ d1 : Digits,
        (c.isDigit = true ∨ c = '.' ∨ c = '_' ∨ (base = 16 ∧ 97 ≤ lower c ∧ lower c ≤ 102)) →
        (d1.sawdigits = true → d.sawdigits = true ∨
          c.isDigit = true ∨ (base = 16 ∧ 97 ≤ lower c ∧ lower c ≤ 102)) →
        (c = '.' → d.sawdot = false ∧ d1.sawdot = true) →
        (c ≠ '.' → d1.sawdot = d.sawdot) →
        (d.underscores = true ∨ c = '_' → d1.underscores = true) →
        ∃ pre, c :: cs = pre ++ (readDigits base cs d1).2 ∧
          (∀ x ∈ pre, x.isDigit = true ∨ x = '.' ∨ x = '_' ∨
            (base = 16 ∧ 97 ≤ lower x ∧ lower x ≤ 102)) ∧
          ((readDigits base cs d1).1.sawdigits = true → d.sawdigits = true ∨
            ∃ x ∈ pre, x.isDigit = true ∨ (base = 16 ∧ 97 ≤ lower x ∧ lower x ≤ 102)) ∧
          pre.count '.' ≤ 1 ∧ (d.sawdot = true → pre.count '.' = 0) ∧
          (d.underscores = true ∨ '_' ∈ pre →
            (readDigits base cs d1).1.underscores = true) := by
      intro d1 hcls hsaw hdot hnodot hund
      obtain ⟨pre, hs, hall, hdig, hcnt, hzero, hu⟩ := ih d1
      refine ⟨c :: pre, by rw [List.cons_append, ← hs], ?_, ?_, ?_, ?_, ?_⟩
      · intro x hx
        rcases List.mem_cons.mp hx with hx | hx
        · subst hx; exact hcls
        · exact hall x hx
      · intro h
        rcases hdig h with h1 | ⟨x, hx, hxd⟩
        · rcases hsaw h1 with h2 | h2
          · exact Or.inl h2
          · exact Or.inr ⟨c, List.mem_cons_self _ _, h2⟩
        · exact Or.inr ⟨x, List.mem_cons_of_mem _ hx, hxd⟩
      · by_cases hc : c = '.'
        · have := hzero (hdot hc).2
          subst hc
          rw [List.count_cons_self, this]
        · rw [List.count_cons_of_ne (fun h => hc h.symm)]
          exact hcnt
      · intro hd
        by_cases hc : c = '.'
        · rw [(hdot hc).1] at hd
          exact absurd hd (by decide)
        · rw [List.count_cons_of_ne (fun h => hc h.symm)]
          exact hzero ((hnodot hc).trans hd)
      · intro h
        rcases h with h | h
        · exact hu (Or.inl (hund (Or.inl h)))
        · rcases List.mem_cons.mp h with h | h
          · exact hu (Or.inl (hund (Or.inr h.symm)))
          · exact hu (Or.inr h)
    have stop : ∃ pre, c :: cs = pre ++ (c :: cs) ∧
        (∀ x ∈ pre, x.isDigit = true ∨ x = '.' ∨ x = '_' ∨
          (base = 16 ∧ 97 ≤ lower x ∧ lower x ≤ 102)) ∧
        (d.sawdigits = true → d.sawdigits = true ∨
          ∃ x ∈ pre, x.isDigit = true ∨ (base = 16 ∧ 97 ≤ lower x ∧ lower x ≤ 102)) ∧
        pre.count '.' ≤ 1 ∧ (d.sawdot = true → pre.count '.' = 0) ∧
        (d.underscores = true ∨ '_' ∈ pre → d.underscores = true) :=
      ⟨[], rfl, by simp, fun h => Or.inl h, by simp, by simp, by simp⟩
    unfold readDigits
    split
    · rename_i hc
      exact ext { d with underscores := true } (Or.inr (Or.inr (Or.inl hc))) (fun h => Or.inl h)
        (fun h => by rw [hc] at h; exact absurd h (by decide)) (fun _ => rfl) (fun _ => rfl)
    · split
      · rename_i hc
        split
        · exact stop
        · rename_i hs
          exact ext { d with sawdot := true, dp := d.nd } (Or.inr (Or.inl hc))
            (fun h => Or.inl h) (fun _ => ⟨by simpa using hs, rfl⟩) (fun h => absurd hc h)
            (fun h => h.elim id (fun h1 => absurd h1 ‹¬c = '_'›))
      · rename_i hc
        split
        · rename_i hd
          split
          · exact ext { d with sawdigits := true, dp := d.dp - 1 } (Or.inl hd)
              (fun _ => Or.inr (Or.inl hd)) (fun h => absurd h hc) (fun _ => rfl)
              (fun h => h.elim id (fun h1 => absurd h1 ‹¬c = '_'›))
          · exact ext { d with sawdigits := true, nd := d.nd + 1,
                                 mantissa := d.mantissa * base + (c.toNat - 48) } (Or.inl hd)
              (fun _ => Or.inr (Or.inl hd)) (fun h => absurd h hc) (fun _ => rfl)
              (fun h => h.elim id (fun h1 => absurd h1 ‹¬c = '_'›))
        · split
          · rename_i h16
            exact ext { d with sawdigits := true, nd := d.nd + 1,
                                 mantissa := d.mantissa * 16 + (lower c - 97 + 10) }
              (Or.inr (Or.inr (Or.inr h16))) (fun _ => Or.inr (Or.inr h16))
              (fun h => absurd h hc) (fun _ => rfl)
              (fun h => h.elim id (fun h1 => absurd h1 ‹¬c = '_'›))
          · exact stop

theorem readExpDigits_all :
    ∀ (s : List Char) (e : Nat) (u : Bool), (readExpDigits s e u).2.2 = [] →
      s.all (fun c => c.isDigit || c == '_') = true := by
  intro s
  induction s with
  | nil => intro e u _; rfl
  | cons c cs ih =>
    intro e u h
    unfold readExpDigits at h
    split at h
    · rename_i hd
      simp only [List.all_cons, hd, Bool.true_or, Bool.true_and]
      exact ih _ _ h
    · split at h
      · rename_i hc
        subst hc
        simp only [List.all_cons, beq_self_eq_true, Bool.or_true, Bool.true_and]
        exact ih _ _ h
      · simp at h

theorem dropSign_cons (c : Char) (t : List Char) :
    dropSign (c :: t) = if c = '+' ∨ c = '-' then t else c :: t := rfl

/-- The text the exponent part reads to its end. -/
theorem readExponent_shape {hexa : Bool} {d : Digits} {dp dp1 : Int} {u : Bool}
    {s : List Char} (h : readExponent hexa d dp s = some (dp1, u, [])) :
    (s = [] ∧ hexa = false) ∨
    ∃ c t, s = c :: t ∧ lower c = (if hexa = true then 112 else 101) ∧
      isExponentDigits (dropSign t) = true := by
  cases s with
  | nil =>
    left
    unfold readExponent at h
    cases hexa with
    | true => simp at h
    | false => exact ⟨rfl, rfl⟩
  | cons c t =>
    right
    unfold readExponent at h
    simp only at h
    by_cases hexp : lower c = (if hexa = true then 112 else 101)
    · refine ⟨c, t, rfl, hexp, ?_⟩
      simp only [hexp, if_true] at h
      cases t with
      | nil => simp at h
      | cons c1 t1 =>
        simp only at h
        rw [dropSign_cons]
        by_cases hsign : c1 = '+' ∨ c1 = '-'
        · simp only [hsign, if_true] at h ⊢
          cases t1 with
          | nil => simp at h
          | cons c2 t2 =>
            simp only at h
            split at h
            · rename_i hd
              simp only [Option.some.injEq, Prod.mk.injEq] at h
              unfold isExponentDigits
              simp only [hd, Bool.true_and]
              exact readExpDigits_all _ _ _ h.2.2
            · simp at h
        · simp only [hsign, if_false] at h ⊢
          split at h
          · rename_i hd
            simp only [Option.some.injEq, Prod.mk.injEq] at h
            unfold isExponentDigits
            simp only [hd, Bool.true_and]
            exact readExpDigits_all _ _ _ h.2.2
          · simp at h
    · simp only [hexp, if_false] at h
      split at h <;> simp at h

theorem takeWhile_split {p : Char → Bool} :
    ∀ (pre rest : List Char), (∀ c ∈ pre, p c = true) →
      (rest = [] ∨ ∃ c t, rest = c :: t ∧ p c = false) →
      (pre ++ rest).takeWhile p = pre ∧ (pre ++ rest).dropWhile p = rest := by
  intro pre
  induction pre with
  | nil =>
    intro rest _ hr
    rcases hr with hr | ⟨c, t, hr, hc⟩
    · subst hr; simp
    · subst hr
      simp [List.takeWhile_cons, List.dropWhile_cons, hc]
  | cons x pre ih =>
    intro rest hp hr
    have hx : p x = true := hp x (List.mem_cons_self _ _)
    obtain ⟨h1, h2⟩ := ih rest (fun c hc => hp c (List.mem_cons_of_mem _ hc)) hr
    simp [List.takeWhile_cons, List.dropWhile_cons, hx, h1, h2]

theorem isMantissa_of {digit : Char → Bool} {m : List Char}
    (hall : ∀ c ∈ m, digit c = true ∨ c = '.' ∨ c = '_') (hany : ∃ c ∈ m, digit c = true)
    (hcnt : m.count '.' ≤ 1) : isMantissa digit m = true := by
  unfold isMantissa
  simp only [Bool.and_eq_true, List.all_eq_true, List.any_eq_true, Bool.or_eq_true,
    beq_iff_eq, decide_eq_true_eq]
  refine ⟨⟨?_, hany⟩, hcnt⟩
  intro c hc
  rcases hall c hc with h | h | h
  · exact Or.inl (Or.inl h)
  · exact Or.inl (Or.inr h)
  · exact Or.inr h

/-- A text that `readNumber` reads to its end is a decimal number, or after
the prefix 0x a hexadecimal one. -/
theorem readNumber_shape {s s2 : List Char} {neg hexa : Bool} {r : ReadFloat}
    (h : readNumber s neg hexa s2 = some r) (hn : r.n = s.length) (hs : 0 < s.length) :
    (if hexa = true then isHexLiteral s2 else isDecimalLiteral s2) = true := by
  unfold readNumber at h
  obtain ⟨pre, hsplit, hall, hdig, hcnt, _, _⟩ :=
    readDigits_split (if hexa = true then 16 else 10) s2 {}
  generalize readDigits (if hexa = true then 16 else 10) s2 {} = rd at h hsplit hdig
  simp only at h
  split at h
  · simp at h
  · rename_i hd
    have hd1 : rd.1.sawdigits = true := by simpa using hd
    split at h
    · simp at h
    · rename_i dp1 u rest hexp
      split at h
      · simp at h
      · simp only [Option.some.injEq] at h
        subst h
        simp only at hn
        have hrest : rest = [] := by
          apply List.eq_nil_of_length_eq_zero
          omega
        subst hrest
        have hshape := readExponent_shape hexp
        have hany : ∃ c ∈ pre, c.isDigit = true ∨
            ((if hexa = true then 16 else 10) = 16 ∧ 97 ≤ lower c ∧ lower c ≤ 102) := by
          rcases hdig hd1 with h1 | h1
          · simp at h1
          · exact h1
        cases hexa with
        | false =>
          simp only [Bool.false_eq_true, if_false] at hall hany hshape ⊢
          have hpre : ∀ c ∈ pre, (!(c == 'e' || c == 'E')) = true := by
            intro c hc
            rcases hall c hc with h1 | h1 | h1 | h1
            · cases he : (c == 'e' || c == 'E') with
              | false => rfl
              | true =>
                exfalso
                simp only [Bool.or_eq_true, beq_iff_eq] at he
                rcases he with he | he <;> subst he <;> exact absurd h1 (by decide)
            · subst h1; decide
            · subst h1; decide
            · exact absurd h1.1 (by decide)
          have hrd : rd.2 = [] ∨ ∃ c t, rd.2 = c :: t ∧ (!(c == 'e' || c == 'E')) = false := by
            rcases hshape with h1 | ⟨c, t, h1, h2, _⟩
            · exact Or.inl h1.1
            · refine Or.inr ⟨c, t, h1, ?_⟩
              rcases lower_eq_e h2 with hc | hc <;> subst hc <;> decide
          obtain ⟨ht, hdr⟩ := takeWhile_split pre rd.2 hpre hrd
          unfold isDecimalLiteral
          rw [hsplit, ht, hdr]
          have hm : isMantissa Char.isDigit pre = true := by
            apply isMantissa_of _ _ hcnt
            · intro c hc
              rcases hall c hc with h1 | h1 | h1 | h1
              · exact Or.inl h1
              · exact Or.inr (Or.inl h1)
              · exact Or.inr (Or.inr h1)
              · exact absurd h1.1 (by decide)
            · obtain ⟨c, hc, h1⟩ := hany
              rcases h1 with h1 | h1
              · exact ⟨c, hc, h1⟩
              · exact absurd h1.1 (by decide)
          rw [hm, Bool.true_and]
          rcases hshape with h1 | ⟨c, t, h1, h2, h3⟩
          · rw [h1.1]; rfl
          · rw [h1]
            unfold isExponent
            simp only [h3, Bool.and_true, List.isEmpty_cons, Bool.false_or, Bool.or_eq_true,
              beq_iff_eq]
            exact lower_eq_e h2
        | true =>
          simp only [if_true, true_and] at hall hany hshape ⊢
          have hpre : ∀ c ∈ pre, (!(c == 'p' || c == 'P')) = true := by
            intro c hc
            cases he : (c == 'p' || c == 'P') with
            | false => rfl
            | true =>
              exfalso
              simp only [Bool.or_eq_true, beq_iff_eq] at he
              rcases hall c hc with h1 | h1 | h1 | h1
              · rcases he with he | he <;> subst he <;> exact absurd h1 (by decide)
              · rcases he with he | he <;> subst he <;> exact absurd h1 (by decide)
              · rcases he with he | he <;> subst he <;> exact absurd h1 (by decide)
              · rcases he with he | he <;> subst he <;> exact absurd h1 (by decide)
          obtain ⟨c, t, h1, h2, h3⟩ : ∃ c t, rd.2 = c :: t ∧ lower c = 112 ∧
              isExponentDigits (dropSign t) = true := by
            rcases hshape with h1 | h1
            · exact absurd h1.2 (by decide)
            · exact h1
          have hrd : rd.2 = [] ∨ ∃ c t, rd.2 = c :: t ∧ (!(c == 'p' || c == 'P')) = false := by
            refine Or.inr ⟨c, t, h1, ?_⟩
            rcases lower_eq_p h2 with hc | hc <;> subst hc <;> decide
          obtain ⟨ht, hdr⟩ := takeWhile_split pre rd.2 hpre hrd
          unfold isHexLiteral
          rw [hsplit, ht, hdr]
          have hm : isMantissa isHexDigit pre = true := by
            apply isMantissa_of _ _ hcnt
            · intro x hx
              rcases hall x hx with h4 | h4 | h4 | h4
              · left; unfold isHexDigit; simp [h4]
              · exact Or.inr (Or.inl h4)
              · exact Or.inr (Or.inr h4)
              · exact Or.inl (lower_hex h4.1 h4.2)
            · obtain ⟨x, hx, h4⟩ := hany
              refine ⟨x, hx, ?_⟩
              rcases h4 with h4 | h4
              · unfold isHexDigit; simp [h4]
              · exact lower_hex h4.1 h4.2
          rw [hm, Bool.true_and, h1]
          unfold isExponent
          simp only [h3, Bool.and_true, Bool.or_eq_true, beq_iff_eq]
          exact lower_eq_p h2

/-- A text that `readFloat` reads to its end is a numeric text. -/
theorem readFloat_shape {s : List Char} {r : ReadFloat} (h : readFloat s = some r)
    (hn : r.n = s.length) : isNumericText s = true := by
  cases s with
  | nil => simp [readFloat] at h
  | cons c t =>
    unfold readFloat at h
    simp only at h
    have hds : dropSign (c :: t) = if c = '+' ∨ c = '-' then t else c :: t := rfl
    rw [← hds] at h
    have hshape := readNumber_shape h hn (by simp)
    unfold isNumericText
    generalize dropSign (c :: t) = s1 at h hshape
    by_cases hx : hexPrefix s1 = true
    · simp only [hx, if_true] at hshape
      match s1, hx with
      | c0 :: c1 :: c2 :: rest, hx =>
        simp only [hexPrefix, Bool.decide_and, Bool.and_eq_true, decide_eq_true_eq] at hx
        have h1 := lower_eq_x hx.2
        simp only [hx.1, h1, and_self, if_true]
        simpa using hshape
    · simp only [hx, Bool.false_eq_true, if_false] at hshape
      split
      · rename_i c0 x c2 rest
        split
        · rename_i hcond
          exfalso
          apply hx
          simp only [hexPrefix, Bool.decide_and, Bool.and_eq_true, decide_eq_true_eq]
          refine ⟨hcond.1, ?_⟩
          rcases hcond.2 with h1 | h1 <;> subst h1 <;> decide
        · exact hshape
      · exact hshape

theorem readExpDigits_underscores :
    ∀ (s : List Char) (e : Nat) (u : Bool), (readExpDigits s e u).2.2 = [] →
      (u = true ∨ '_' ∈ s) → (readExpDigits s e u).2.1 = true := by
  intro s
  induction s with
  | nil =>
    intro e u _ h
    rcases h with h | h
    · simpa [readExpDigits] using h
    · simp at h
  | cons c cs ih =>
    intro e u h hu
    unfold readExpDigits at h ⊢
    split at h
    · rename_i hd
      simp only [hd, if_true]
      apply ih _ _ h
      rcases hu with hu | hu
      · exact Or.inl hu
      · rcases List.mem_cons.mp hu with hu | hu
        · subst hu; exact absurd hd (by decide)
        · exact Or.inr hu
    · rename_i hd
      split at h
      · rename_i hc
        simp only [hd, hc, if_true, Bool.false_eq_true, if_false]
        exact ih _ _ h (Or.inl rfl)
      · simp at h

theorem lower_underscore : lower '_' = 127 := by decide

/-- The underscore flag after the exponent is set if an underscore was read. -/
theorem readExponent_underscores {hexa : Bool} {d : Digits} {dp dp1 : Int} {u : Bool}
    {s : List Char} (h : readExponent hexa d dp s = some (dp1, u, []))
    (hu : d.underscores = true ∨ '_' ∈ s) : u = true := by
  cases s with
  | nil =>
    unfold readExponent at h
    cases hexa with
    | true => simp at h
    | false =>
      simp only [Bool.false_eq_true, if_false, Option.some.injEq, Prod.mk.injEq] at h
      rcases hu with hu | hu
      · rw [← h.2.1]; exact hu
      · simp at hu
  | cons c t =>
    unfold readExponent at h
    simp only at h
    by_cases hexp : lower c = (if hexa = true then 112 else 101)
    · have hc : '_' ≠ c := by
        intro hc
        subst hc
        rw [lower_underscore] at hexp
        cases hexa <;> simp at hexp
      have hu1 : d.underscores = true ∨ '_' ∈ t := by
        rcases hu with hu | hu
        · exact Or.inl hu
        · rcases List.mem_cons.mp hu with hu | hu
          · exact absurd hu hc
          · exact Or.inr hu
      simp only [hexp, if_true] at h
      cases t with
      | nil => simp at h
      | cons c1 t1 =>
        simp only at h
        by_cases hsign : c1 = '+' ∨ c1 = '-'
        · have hc1 : '_' ≠ c1 := by
            intro hc1
            subst hc1
            revert hsign
            decide
          have hu2 : d.underscores = true ∨ '_' ∈ t1 := by
            rcases hu1 with hu1 | hu1
            · exact Or.inl hu1
            · rcases List.mem_cons.mp hu1 with hu1 | hu1
              · exact absurd hu1 hc1
              · exact Or.inr hu1
          simp only [hsign, if_true] at h
          cases t1 with
          | nil => simp at h
          | cons c2 t2 =>
            simp only at h
            split at h
            · simp only [Option.some.injEq, Prod.mk.injEq] at h
              rw [← h.2.1]
              exact readExpDigits_underscores _ _ _ h.2.2 hu2
            · simp at h
        · simp only [hsign, if_false] at h
          split at h
          · simp only [Option.some.injEq, Prod.mk.injEq] at h
            rw [← h.2.1]
            exact readExpDigits_underscores _ _ _ h.2.2 hu1
          · simp at h
    · simp only [hexp, if_false] at h
      split at h <;> simp at h

/-- A text with an underscore that `readNumber` reads to its end passes
`underscoreOK`. -/
theorem readNumber_underscores {s s2 : List Char} {neg hexa : Bool} {r : ReadFloat}
    (h : readNumber s neg hexa s2 = some r) (hn : r.n = s.length) (hs : 0 < s.length)
    (hu : '_' ∈ s2) : underscoreOK s = true := by
  unfold readNumber at h
  obtain ⟨pre, hsplit, _, _, _, _, hund⟩ :=
    readDigits_split (if hexa = true then 16 else 10) s2 {}
  generalize readDigits (if hexa = true then 16 else 10) s2 {} = rd at h hsplit hund
  simp only at h
  split at h
  · simp at h
  · split at h
    · simp at h
    · rename_i dp1 u rest hexp
      split at h
      · simp at h
      · rename_i hok
        simp only [Option.some.injEq] at h
        subst h
        simp only at hn
        have hrest : rest = [] := by
          apply List.eq_nil_of_length_eq_zero
          omega
        subst hrest
        have hflag : u = true := by
          apply readExponent_underscores hexp
          rw [hsplit, List.mem_append] at hu
          rcases hu with hu | hu
          · exact Or.inl (hund (Or.inr hu))
          · exact Or.inr hu
        have htake : List.take (s.length - ([] : List Char).length) s = s := by
          simp
        rw [htake, hflag] at hok
        cases hval : underscoreOK s with
        | true => rfl
        | false => exact absurd ⟨rfl, hval⟩ hok

/-- A text with an underscore that `readFloat` reads to its end passes
`underscoreOK`: its underscores separate digits. -/
theorem readFloat_underscores {s : List Char} {r : ReadFloat} (h : readFloat s = some r)
    (hn : r.n = s.length) (hu : '_' ∈ s) : underscoreOK s = true := by
  cases s with
  | nil => simp at hu
  | cons c t =>
    unfold readFloat at h
    simp only at h
    have hds : dropSign (c :: t) = if c = '+' ∨ c = '-' then t else c :: t := rfl
    rw [← hds] at h
    have hu1 : '_' ∈ dropSign (c :: t) := by
      rw [hds]
      by_cases hsign : c = '+' ∨ c = '-'
      · simp only [hsign, if_true]
        rcases List.mem_cons.mp hu with hu | hu
        · subst hu
          exact absurd hsign (by decide)
        · exact hu
      · simp only [hsign, if_false]
        exact hu
    generalize dropSign (c :: t) = s1 at h hu1
    apply readNumber_underscores h hn (by simp)
    by_cases hx : hexPrefix s1 = true
    · simp only [hx, if_true]
      match s1, hx, hu1 with
      | c0 :: c1 :: c2 :: rest, hx, hu1 =>
        simp only [hexPrefix, Bool.decide_and, Bool.and_eq_true, decide_eq_true_eq] at hx
        simp only [List.drop_succ_cons, List.drop_zero]
        rcases List.mem_cons.mp hu1 with hu1 | hu1
        · rw [← hu1] at hx
          exact absurd hx.1 (by decide)
        · rcases List.mem_cons.mp hu1 with hu1 | hu1
          · rw [← hu1, lower_underscore] at hx
            omega
          · exact hu1
    · simp only [hx, Bool.false_eq_true, if_false]
      exact hu1

theorem toLower_eq {c q : Char} (h : c.toLower = q) :
    c = q ∨ (97 ≤ q.toNat ∧ q.toNat ≤ 122 ∧ c = Char.ofNat (q.toNat - 32)) := by
  by_cases hr : 65 ≤ c.toNat ∧ c.toNat ≤ 90
  · right
    have hc : c = Char.ofNat c.toNat := (Char.ofNat_toNat c).symm
    obtain ⟨h1, h2⟩ := hr
    generalize c.toNat = k at hc h1 h2
    subst hc
    subst h
    interval_cases k <;> decide
  · left
    unfold Char.toLower at h
    have hr1 : ¬ (c.toNat ≥ 65 ∧ c.toNat ≤ 90) := hr
    simpa [hr1] using h

theorem commonPrefixLen_of_map :
    ∀ (s p : List Char), s.map Char.toLower = p.take s.length → s.length ≤ p.length →
      commonPrefixLenIgnoreCase s p = s.length := by
  intro s
  induction s with
  | nil => intro p _ _; cases p <;> rfl
  | cons c s ih =>
    intro p h hl
    cases p with
    | nil => simp at hl
    | cons q p =>
      simp only [List.map_cons, List.length_cons, List.take_succ_cons, List.cons.injEq] at h
      unfold commonPrefixLenIgnoreCase
      simp only [h.1, if_true, List.length_cons]
      rw [ih p h.2 (by simpa using hl)]

theorem specialInf_of_map {neg : Bool} {k : Nat} {r : List Char}
    (h : r.map Char.toLower = ['i', 'n', 'f'] ∨
      r.map Char.toLower = ['i', 'n', 'f', 'i', 'n', 'i', 't', 'y']) :
    specialInf neg k r = some (Float64.inf neg, k + r.length) := by
  unfold specialInf
  rcases h with h | h
  · have hlen : r.length = 3 := by
      have := congrArg List.length h
      simpa using this
    have := commonPrefixLen_of_map r ['i', 'n', 'f', 'i', 'n', 'i', 't', 'y']
      (by rw [h, hlen]; rfl) (by rw [hlen]; decide)
    rw [this, hlen]
    rfl
  · have hlen : r.length = 8 := by
      have := congrArg List.length h
      simpa using this
    have := commonPrefixLen_of_map r ['i', 'n', 'f', 'i', 'n', 'i', 't', 'y']
      (by rw [h, hlen]; rfl) (by rw [hlen]; decide)
    rw [this, hlen]
    rfl

/-- Each of the seven spellings, in any letter case, is read to its end by
`special`, with a value that is not finite. -/
theorem special_of_word {l : List Char} (h : String.mk (l.map Char.toLower) ∈ specialWords) :
    ∃ v, special l = some (v, l.length) ∧ v.isFinite = false := by
  have hcases : l.map Char.toLower = ['n', 'a', 'n'] ∨
      (∃ c r, l = c :: r ∧ (c = '+' ∨ c = '-') ∧
        (r.map Char.toLower = ['i', 'n', 'f'] ∨
         r.map Char.toLower = ['i', 'n', 'f', 'i', 'n', 'i', 't', 'y'])) ∨
      (l.map Char.toLower = ['i', 'n', 'f'] ∨
       l.map Char.toLower = ['i', 'n', 'f', 'i', 'n', 'i', 't', 'y']) := by
    have hsign : ∀ (q : Char) (w : List Char), (q = '+' ∨ q = '-') →
        l.map Char.toLower = q :: w → ∃ c r, l = c :: r ∧ (c = '+' ∨ c = '-') ∧
          r.map Char.toLower = w := by
      intro q w hq hl
      cases l with
      | nil => simp at hl
      | cons c r =>
        simp only [List.map_cons, List.cons.injEq] at hl
        refine ⟨c, r, rfl, ?_, hl.2⟩
        rcases toLower_eq hl.1 with h1 | h1
        · rw [h1]; exact hq
        · rcases hq with hq | hq <;> subst hq <;> exact absurd h1.1 (by decide)
    have conv : ∀ w : String, String.mk (l.map Char.toLower) = w →
        l.map Char.toLower = w.data := fun w hw => by rw [← hw]
    simp only [specialWords, List.mem_cons, List.mem_singleton, List.not_mem_nil,
      or_false] at h
    rcases h with h | h | h | h | h | h | h <;> replace h := conv _ h
    · exact Or.inl h
    · exact Or.inr (Or.inr (Or.inl h))
    · obtain ⟨c, r, h1, h2, h3⟩ := hsign '+' _ (Or.inl rfl) h
      exact Or.inr (Or.inl ⟨c, r, h1, h2, Or.inl h3⟩)
    · obtain ⟨c, r, h1, h2, h3⟩ := hsign '-' _ (Or.inr rfl) h
      exact Or.inr (Or.inl ⟨c, r, h1, h2, Or.inl h3⟩)
    · exact Or.inr (Or.inr (Or.inr h))
    · obtain ⟨c, r, h1, h2, h3⟩ := hsign '+' _ (Or.inl rfl) h
      exact Or.inr (Or.inl ⟨c, r, h1, h2, Or.inr h3⟩)
    · obtain ⟨c, r, h1, h2, h3⟩ := hsign '-' _ (Or.inr rfl) h
      exact Or.inr (Or.inl ⟨c, r, h1, h2, Or.inr h3⟩)
  rcases hcases with h1 | ⟨c, r, h1, h2, h3⟩ | h1
  · cases l with
    | nil => simp at h1
    | cons c r =>
      have hlen : (c :: r).length = 3 := by
        have := congrArg List.length h1
        simpa using this
      have hcpl := commonPrefixLen_of_map (c :: r) ['n', 'a', 'n']
        (by rw [h1, hlen]; rfl) (by rw [hlen]; decide)
      have hc : c = 'n' ∨ c = 'N' := by
        simp only [List.map_cons, List.cons.injEq] at h1
        rcases toLower_eq h1.1 with h2 | h2
        · exact Or.inl h2
        · exact Or.inr h2.2.2
      refine ⟨Float64.nan, ?_, rfl⟩
      unfold special
      rw [hcpl, hlen]
      rcases hc with hc | hc <;> subst hc <;> simp
  · subst h1
    refine ⟨Float64.inf (decide (c = '-')), ?_, rfl⟩
    unfold special
    simp only [h2, if_true]
    rw [specialInf_of_map h3, List.length_cons, Nat.add_comm]
  · cases l with
    | nil => rcases h1 with h1 | h1 <;> simp at h1
    | cons c r =>
      have hc : c = 'i' ∨ c = 'I' := by
        have : c.toLower = 'i' := by
          rcases h1 with h1 | h1 <;>
            (simp only [List.map_cons, List.cons.injEq] at h1; exact h1.1)
        rcases toLower_eq this with h2 | h2
        · exact Or.inl h2
        · exact Or.inr h2.2.2
      refine ⟨Float64.inf false, ?_, rfl⟩
      have hinf := @specialInf_of_map false 0 (c :: r) h1
      unfold special
      rcases hc with hc | hc <;> subst hc <;> simp only [] <;>
        simpa using hinf

/-- Each of the seven spellings, in any letter case, is accepted, with a value
that is NaN or an infinity. -/
theorem ParseFloat_of_word {s : String} (h : lowerCase s ∈ specialWords) :
    ∃ f, ParseFloat s = .ok f ∧ f.isFinite = false := by
  obtain ⟨v, hv, hfin⟩ := special_of_word (l := s.data) h
  refine ⟨v, ?_, hfin⟩
  unfold ParseFloat parseFloatChars atof64
  simp [hv]

/-- Every text `strconv.ParseFloat` accepts is of one of two kinds: a numeric
text, whose underscores separate digits, with a decimal digit and at most one
decimal point, whose value is finite, or one of the seven special spellings
(in any letter case), whose value is NaN or an infinity. -/
theorem ParseFloat_ok_cases {s : String} {f : Float64} (h : ParseFloat s = .ok f) :
    (f.isFinite = true ∧ isNumericText s.data = true ∧
      ('_' ∈ s.data → underscoreOK s.data = true) ∧
      (∃ c ∈ s.data, c.isDigit = true) ∧ s.data.count '.' ≤ 1) ∨
    (f.isFinite = false ∧ lowerCase s ∈ specialWords) := by
  unfold ParseFloat parseFloatChars atof64 at h
  cases hsp : special s.data with
  | some p =>
    obtain ⟨val, n⟩ := p
    simp only [hsp] at h
    split at h
    · simp at h
    · rename_i hlen
      simp only [Except.ok.injEq] at h
      subst h
      have hn : n = s.data.length := by simpa using hlen
      subst hn
      exact Or.inr (special_full hsp)
  | none =>
    simp only [hsp] at h
    cases hrf : readFloat s.data with
    | none => simp [hrf] at h
    | some r =>
      simp only [hrf] at h
      by_cases hov : overflows r.mantissa (if r.hex = true then 2 else 10) r.exp = true
      · simp only [hov, if_true] at h
        split at h <;> simp at h
      · simp only [hov, Bool.false_eq_true, if_false] at h
        split at h
        · simp at h
        · rename_i hlen
          simp only [Except.ok.injEq] at h
          subst h
          have hn : r.n = s.data.length := by simpa using hlen
          exact Or.inl ⟨rfl, readFloat_shape hrf hn, readFloat_underscores hrf hn,
            readFloat_full hrf hn⟩

theorem specialWords_no_dot : ∀ w ∈ specialWords, w.data.count '.' = 0 := by decide

theorem specialWords_ne_empty : ∀ w ∈ specialWords, w.data ≠ [] := by decide

theorem specialWords_no_underscore : ∀ w ∈ specialWords, '_' ∉ w.data := by decide

/-- The texts `strconv.ParseFloat` rejects for sure: the empty text, a text
with two decimal points or more, a text that is not numeric (one without a
decimal digit, for instance) and not one of the special spellings, and a text
with an underscore that does not separate digits. -/
theorem ParseFloat_rejects {s : String}
    (h : s = "" ∨ 2 ≤ s.data.count '.' ∨
      ((∀ c ∈ s.data, c.isDigit = false) ∧ lowerCase s ∉ specialWords) ∨
      (isNumericText s.data = false ∧ lowerCase s ∉ specialWords) ∨
      ('_' ∈ s.data ∧ underscoreOK s.data = false)) :
    accepted s = false := by
  cases hacc : accepted s with
  | false => rfl
  | true =>
    exfalso
    obtain ⟨f, hf⟩ := accepted_eq_true.mp hacc
    rcases ParseFloat_ok_cases hf with ⟨_, hnum, hund, ⟨c, hc, hd⟩, hdots⟩ | ⟨_, hw⟩
    · rcases h with h | h | h | h | h
      · subst h; simp at hc
      · omega
      · rw [h.1 c hc] at hd
        simp at hd
      · rw [h.1] at hnum
        simp at hnum
      · rw [hund h.1] at h
        simp at h
    · rcases h with h | h | h | h | h
      · subst h
        exact specialWords_ne_empty _ hw rfl
      · have h0 := specialWords_no_dot _ hw
        have hle := List.count_le_count_map s.data Char.toLower '.'
        have hdot : Char.toLower '.' = '.' := by decide
        rw [hdot] at hle
        simp only [lowerCase] at h0
        omega
      · exact h.2 hw
      · exact h.2 hw
      · apply specialWords_no_underscore _ hw
        simp only [lowerCase]
        have hm := List.mem_map_of_mem Char.toLower h.1
        have hl : Char.toLower '_' = '_' := by decide
        rw [hl] at hm
        exact hm

/-- C8 as stated fails: the text NaN is accepted with a value that is not a
finite number, and so are Infinity and -inf; a row whose coordinates are NaN
and Infinity is inserted. (Texts with an exponent, a prefix 0x or underscores
among the digits are accepted as well, as numbers.) -/
theorem C8_nan_is_inserted :
    ParseFloat "NaN" = .ok Float64.nan ∧ Float64.nan.isFinite = false ∧
    ParseFloat "Infinity" = .ok (Float64.inf false) ∧
    (Float64.inf false).isFinite = false ∧
    ParseFloat "-inf" = .ok (Float64.inf true) ∧
    accepted "1e5" = true ∧ accepted "0x1p-2" = true ∧ accepted "1_000" = true ∧
    (main (dbAlways true) () [headerRow, mkRow "N" "" "" "NaN" "Infinity" "" ""]).1.calls
      = [{ stmt := query,
           args := [.text "0001", .text "N", .text "", .text "", .float Float64.nan,
                    .float (Float64.inf false), .text "", .text ""],
           ok := true }] ∧
    (main (dbAlways true) () [headerRow, mkRow "N" "" "" "NaN" "Infinity" "" ""]).1.successCount
      = 1 := by
  refine ⟨rfl, rfl, rfl, rfl, rfl, rfl, rfl, rfl, ?_, ?_⟩ <;> decide

/-- C8, amended: a row that is processed makes a call of `db.Exec` only if
`strconv.ParseFloat` accepts both its latitude cell (index 14) and its
longitude cell (index 15); if it rejects one of them the row is an error and
nothing is inserted. `ParseFloat` rejects the empty text, every text with more
than one decimal point, and every text that is not numeric (not of the shape
of a number, or with an underscore that does not separate digits), other than
the special spellings nan, inf, infinity (signed or not, in any letter case);
those spellings it accepts, with a value that is NaN or an infinity, and the
value of every other accepted text is a finite number. -/
theorem C8_insert_only_if_accepted {σ : Type} (db : Database σ) (i : Nat)
    (record : List String) (st st1 : State σ) (hi : i ≠ 0)
    (hbody : body db i record st = .ok st1) :
    (st1.calls ≠ st.calls →
      ∃ lat lon, ParseFloat (record.getD 14 "") = .ok lat ∧
        ParseFloat (record.getD 15 "") = .ok lon ∧
        (lat.isFinite = true ∨ lowerCase (record.getD 14 "") ∈ specialWords) ∧
        (lon.isFinite = true ∨ lowerCase (record.getD 15 "") ∈ specialWords)) ∧
    (accepted (record.getD 14 "") = false ∨ accepted (record.getD 15 "") = false →
      st1.calls = st.calls ∧ st1.db = st.db ∧ st1.successCount = st.successCount ∧
      st1.idCounter = st.idCounter ∧ st1.errorCount = st.errorCount + 1) ∧
    (∀ s : String, s = "" ∨ 2 ≤ s.data.count '.' ∨
        ((∀ c ∈ s.data, c.isDigit = false) ∧ lowerCase s ∉ specialWords) ∨
        (isNumericText s.data = false ∧ lowerCase s ∉ specialWords) ∨
        ('_' ∈ s.data ∧ underscoreOK s.data = false) →
      accepted s = false) ∧
    (∀ (s : String) (f : Float64), ParseFloat s = .ok f →
      (f.isFinite = true ∧ isNumericText s.data = true ∧
        ('_' ∈ s.data → underscoreOK s.data = true) ∧
        (∃ c ∈ s.data, c.isDigit = true) ∧ s.data.count '.' ≤ 1) ∨
      (f.isFinite = false ∧ lowerCase s ∈ specialWords)) ∧
    (∀ s : String, lowerCase s ∈ specialWords →
      ∃ f, ParseFloat s = .ok f ∧ f.isFinite = false) := by
  have h34 := body_ok_length db hi hbody
  rw [body_of_length db hi h34] at hbody
  simp only [Except.ok.injEq] at hbody
  subst hbody
  have hinvalid : valid record = false →
      (process db i (cellsOf record) st).calls = st.calls ∧
      (process db i (cellsOf record) st).db = st.db ∧
      (process db i (cellsOf record) st).successCount = st.successCount ∧
      (process db i (cellsOf record) st).idCounter = st.idCounter ∧
      (process db i (cellsOf record) st).errorCount = st.errorCount + 1 := by
    intro hv
    rcases valid_eq_false hv with ⟨e, he⟩ | ⟨lat, e, h1, h2⟩
    · rw [process_lat_error db i _ st he]
      exact ⟨rfl, rfl, rfl, rfl, rfl⟩
    · rw [process_lon_error db i _ st h1 h2]
      exact ⟨rfl, rfl, rfl, rfl, rfl⟩
  refine ⟨?_, ?_, fun s hs => ParseFloat_rejects hs, fun s f hf => ParseFloat_ok_cases hf,
    fun s hs => ParseFloat_of_word hs⟩
  · intro hcalls
    cases hv : valid record with
    | false => exact absurd (hinvalid hv).1 hcalls
    | true =>
      obtain ⟨lat, lon, h1, h2⟩ := valid_eq_true hv
      refine ⟨lat, lon, h1, h2, ?_, ?_⟩
      · rcases ParseFloat_ok_cases h1 with h | h
        · exact Or.inl h.1
        · exact Or.inr h.2
      · rcases ParseFloat_ok_cases h2 with h | h
        · exact Or.inl h.1
        · exact Or.inr h.2
  · intro hrej
    apply hinvalid
    unfold valid
    rcases hrej with h | h
    · rw [h, Bool.false_and]
    · rw [h, Bool.and_false]

/-- C8, amended, on the row A, which is inserted, on the row B, whose latitude
cell is the text xx, and on texts that are not numeric though they hold
digits. -/
theorem C8_insert_only_if_accepted_witness :
    (1 : Nat) ≠ 0 ∧
    (∃ lat lon, ParseFloat (rowA.getD 14 "") = .ok lat ∧
      ParseFloat (rowA.getD 15 "") = .ok lon ∧
      (lat.isFinite = true ∨ lowerCase (rowA.getD 14 "") ∈ specialWords) ∧
      (lon.isFinite = true ∨ lowerCase (rowA.getD 15 "") ∈ specialWords)) ∧
    (accepted (rowB.getD 14 "") = false ∨ accepted (rowB.getD 15 "") = false →
      (process (dbAlways true) 1 (cellsOf rowB) (State.init ())).calls = (State.init ()).calls ∧
      (process (dbAlways true) 1 (cellsOf rowB) (State.init ())).db = (State.init ()).db ∧
      (process (dbAlways true) 1 (cellsOf rowB) (State.init ())).successCount
        = (State.init ()).successCount ∧
      (process (dbAlways true) 1 (cellsOf rowB) (State.init ())).idCounter
        = (State.init ()).idCounter ∧
      (process (dbAlways true) 1 (cellsOf rowB) (State.init ())).errorCount
        = (State.init ()).errorCount + 1) ∧
    accepted "" = false ∧ accepted "1.2.3" = false ∧ accepted "abc" = false ∧
    accepted "35,0" = false ∧ accepted "12abc" = false ∧ accepted "N35.0" = false ∧
    accepted "35°" = false ∧ accepted " 35.0" = false ∧ accepted "1__0" = false ∧
    (∃ f, ParseFloat "nAn" = .ok f ∧ f.isFinite = false) :=
  ⟨by decide,
   (C8_insert_only_if_accepted (dbAlways true) 1 rowA (State.init ()) _ (by decide)
     (body_of_length (dbAlways true) (by decide) (by decide) _)).1 (by decide),
   (C8_insert_only_if_accepted (dbAlways true) 1 rowB (State.init ()) _ (by decide)
     (body_of_length (dbAlways true) (by decide) (by decide) _)).2.1,
   by decide, by decide, by decide,
   (C8_insert_only_if_accepted (dbAlways true) 1 rowA (State.init ()) _ (by decide)
     (body_of_length (dbAlways true) (by decide) (by decide) _)).2.2.1 "35,0"
     (Or.inr (Or.inr (Or.inr (Or.inl ⟨by decide, by decide⟩)))),
   (C8_insert_only_if_accepted (dbAlways true) 1 rowA (State.init ()) _ (by decide)
     (body_of_length (dbAlways true) (by decide) (by decide) _)).2.2.1 "12abc"
     (Or.inr (Or.inr (Or.inr (Or.inl ⟨by decide, by decide⟩)))),
   (C8_insert_only_if_accepted (dbAlways true) 1 rowA (State.init ()) _ (by decide)
     (body_of_length (dbAlways true) (by decide) (by decide) _)).2.2.1 "N35.0"
     (Or.inr (Or.inr (Or.inr (Or.inl ⟨by decide, by decide⟩)))),
   (C8_insert_only_if_accepted (dbAlways true) 1 rowA (State.init ()) _ (by decide)
     (body_of_length (dbAlways true) (by decide) (by decide) _)).2.2.1 "35°"
     (Or.inr (Or.inr (Or.inr (Or.inl ⟨by decide, by decide⟩)))),
   (C8_insert_only_if_accepted (dbAlways true) 1 rowA (State.init ()) _ (by decide)
     (body_of_length (dbAlways true) (by decide) (by decide) _)).2.2.1 " 35.0"
     (Or.inr (Or.inr (Or.inr (Or.inl ⟨by decide, by decide⟩)))),
   (C8_insert_only_if_accepted (dbAlways true) 1 rowA (State.init ()) _ (by decide)
     (body_of_length (dbAlways true) (by decide) (by decide) _)).2.2.1 "1__0"
     (Or.inr (Or.inr (Or.inr (Or.inr ⟨by decide, by decide⟩)))),
   (C8_insert_only_if_accepted (dbAlways true) 1 rowA (State.init ()) _ (by decide)
     (body_of_length (dbAlways true) (by decide) (by decide) _)).2.2.2.2 "nAn" (by decide)⟩

/-! ## Identifiers of the insert attempts -/

theorem numbered_ids (cs : List ExecCall) :
    ∀ n, Numbered n cs → ∀ c ∈ cs, ∃ m, n ≤ m ∧ c.id = Sprintf04d m := by
  induction cs with
  | nil => intro n _ c hc; simp at hc
  | cons x cs ih =>
    intro n h c hc
    obtain ⟨hid, hrest⟩ := h
    rcases List.mem_cons.mp hc with hc | hc
    · subst hc
      exact ⟨n, Nat.le_refl n, hid⟩
    · obtain ⟨m, hm, hcm⟩ := ih _ hrest c hc
      refine ⟨m, ?_, hcm⟩
      by_cases hx : x.ok = true
      · simp only [hx, if_true] at hm; omega
      · simp only [hx, if_false] at hm; exact hm

theorem numbered_later (cs : List ExecCall) :
    ∀ n, Numbered n cs → ∀ (i j : Nat) (a b : ExecCall), i < j →
      cs[i]? = some a → cs[j]? = some b → a.ok = true → a.id ≠ b.id := by
  induction cs with
  | nil => intro n _ i j a b _ ha; simp at ha
  | cons x cs ih =>
    intro n h i j a b hij ha hb hok
    obtain ⟨hid, hrest⟩ := h
    cases j with
    | zero => omega
    | succ j =>
      rw [List.getElem?_cons_succ] at hb
      cases i with
      | zero =>
        simp only [List.getElem?_cons_zero, Option.some.injEq] at ha
        subst ha
        simp only [hok, if_true] at hrest
        obtain ⟨m, hm, hbm⟩ := numbered_ids cs _ hrest b (List.getElem?_mem hb)
        rw [hid, hbm]
        intro heq
        have := Sprintf04d_injective heq
        omega
      | succ i =>
        rw [List.getElem?_cons_succ] at ha
        exact ih _ hrest i j a b (by omega) ha hb hok

theorem numbered_next (cs : List ExecCall) :
    ∀ n, Numbered n cs → ∀ (i : Nat) (a b : ExecCall),
      cs[i]? = some a → cs[i + 1]? = some b → a.ok = false → b.id = a.id := by
  induction cs with
  | nil => intro n _ i a b ha; simp at ha
  | cons x cs ih =>
    intro n h i a b ha hb hok
    obtain ⟨hid, hrest⟩ := h
    rw [List.getElem?_cons_succ] at hb
    cases i with
    | zero =>
      simp only [List.getElem?_cons_zero, Option.some.injEq] at ha
      subst ha
      simp only [hok, Bool.false_eq_true, if_false] at hrest
      cases cs with
      | nil => simp at hb
      | cons y cs =>
        simp only [List.getElem?_cons_zero, Option.some.injEq] at hb
        subst hb
        rw [hrest.1, hid]
    | succ i =>
      rw [List.getElem?_cons_succ] at ha
      exact ih _ hrest i a b ha hb hok

/-- C7 as stated fails: when the insert of a row fails, the next insert
attempt carries the same identifier, here "0001" twice in one run. -/
theorem C7_identifier_reused :
    (main dbScript [false] [headerRow, rowA, rowA]).1.calls.map (fun c => (c.id, c.ok))
      = [("0001", false), ("0001", true)] ∧
    ¬ ((main dbScript [false] [headerRow, rowA, rowA]).1.calls.map ExecCall.id).Nodup := by
  constructor <;> decide

/-- C7, amended: over rows of at least 34 cells, the identifier of an insert
that succeeded is carried by no later insert attempt of the run, so no two
persisted rows have the same identifier; the identifier of an insert that
failed is carried again by the next insert attempt. -/
theorem C7_identifiers_of_attempts {σ : Type} (db : Database σ) (s0 : σ)
    (hdr : List String) (rows : List (List String)) (h34 : ∀ r ∈ rows, 34 ≤ r.length) :
    (∀ (i j : Nat) (a b : ExecCall), i < j →
      (main db s0 (hdr :: rows)).1.calls[i]? = some a →
      (main db s0 (hdr :: rows)).1.calls[j]? = some b → a.ok = true → a.id ≠ b.id) ∧
    (∀ (i : Nat) (a b : ExecCall),
      (main db s0 (hdr :: rows)).1.calls[i]? = some a →
      (main db s0 (hdr :: rows)).1.calls[i + 1]? = some b → a.ok = false → b.id = a.id) ∧
    (persistedIds (main db s0 (hdr :: rows)).1).Nodup := by
  obtain ⟨_, out, hran⟩ := main_ran db s0 hdr rows h34
  have hnum : Numbered 1 (main db s0 (hdr :: rows)).1.calls := hran.numbered
  refine ⟨numbered_later _ 1 hnum, numbered_next _ 1 hnum, ?_⟩
  unfold persistedIds
  rw [numbered_filter _ 1 hnum]
  exact List.Nodup.map (fun _ _ h => Sprintf04d_injective h) (List.nodup_range' _ _)

/-- C7, amended, on a document of three data rows of which the insert of the
first fails: the first two attempts carry "0001", the third "0002". -/
theorem C7_identifiers_of_attempts_witness :
    (∀ r ∈ [rowA, rowA, rowA], 34 ≤ r.length) ∧
    (persistedIds (main dbScript [false] (headerRow :: [rowA, rowA, rowA])).1).Nodup ∧
    (main dbScript [false] (headerRow :: [rowA, rowA, rowA])).1.calls.map
        (fun c => (c.id, c.ok))
      = [("0001", false), ("0001", true), ("0002", true)] :=
  ⟨by decide,
   (C7_identifiers_of_attempts dbScript [false] headerRow [rowA, rowA, rowA] (by decide)).2.2,
   by decide⟩

/-! ## A document of ten thousand rows -/

theorem loop_replicate_rowA :
    ∀ (n i : Nat) (st : State Unit), i ≠ 0 →
      (loop (dbAlways true) i (List.replicate n rowA) st).1.calls.map ExecCall.id
        = st.calls.map ExecCall.id ++ (List.range' st.idCounter n).map Sprintf04d := by
  intro n
  induction n with
  | zero => intro i st _; simp [loop]
  | succ n ih =>
    intro i st hi
    have h1 : ParseFloat (cellsOf rowA).latStr = .ok (Float64.finite false 350 10 (-1)) := rfl
    have h2 : ParseFloat (cellsOf rowA).lonStr = .ok (Float64.finite false 1390 10 (-1)) := rfl
    have hstep : loop (dbAlways true) i (List.replicate (n + 1) rowA) st
        = loop (dbAlways true) (i + 1) (List.replicate n rowA)
            (process (dbAlways true) i (cellsOf rowA) st) := by
      rw [List.replicate_succ]
      simp only [loop]
      rw [body_of_length (dbAlways true) hi (by decide)]
    rw [hstep, process_insert_ok (dbAlways true) i _ st h1 h2 rfl, ih _ _ (by omega)]
    simp [List.range'_succ, ExecCall.id, argsOf]

/-- C6 at a document of 10000 valid rows whose inserts all succeed: the run
is not stopped, and the identifier of the last insert is "10000", which has
five characters. -/
theorem C6_five_characters :
    (main (dbAlways true) () (headerRow :: List.replicate 10000 rowA)).2 = none ∧
    ((main (dbAlways true) () (headerRow :: List.replicate 10000 rowA)).1.calls.map
        ExecCall.id)[9999]? = some "10000" ∧
    ("10000" : String).length = 5 := by
  have hne : List.replicate 10000 rowA ≠ [] := by
    intro h
    have := congrArg List.length h
    rw [List.length_replicate] at this
    exact absurd this (by decide)
  have h34 : ∀ r ∈ List.replicate 10000 rowA, 34 ≤ r.length := by
    intro r hr
    rw [List.eq_of_mem_replicate hr]
    decide
  refine ⟨(main_ran (dbAlways true) () headerRow _ h34).1 hne, ?_, by decide⟩
  rw [main_cons]
  simp only [hne, if_false]
  rw [loop_replicate_rowA 10000 1 _ (by omega)]
  simp only [State.init, List.map_nil, List.nil_append, List.getElem?_map]
  have hk : (List.range' 1 10000)[9999]? = some 10000 := by
    rw [List.getElem?_eq_some]
    exact ⟨by simp, by simp [List.getElem_range']⟩
  rw [hk]
  decide

end ShelterAdder
